import Mathlib

/-
Verification development for the distributed code indexer
(src/distributed_indexer.py and src/distributed_models.py).

Shallow embedding conventions:
  * Paths are modelled as lists of path components (os.path.join adds one
    component; os.path.relpath of the walked directory against the repo root
    is the component list accumulated along the recursion, with [] standing
    for the Python value "." at the root).
  * A source file is abstracted to the observables the indexer reads from its
    content: the number of lines (len of splitlines), the ast.parse result
    (none models a SyntaxError), and the md5 content digest.  Byte-identical
    files therefore have equal observables, in particular equal digests.
  * The OpenAI chat-completion backend is a parameter (structure Env below);
    a call that raises is modelled by the function returning none.
  * Side effects are modelled as traces threaded through the recursion:
    written artifacts (path, record) and, for temporal claims, the list of
    file-summary generator invocations (one entry per worker task submitted
    by the batch pass, carrying the file_hash of the submitted record).
-/

namespace CPI

/-! ## Python AST fragment for the complexity metric

The extractor walks an ast tree with ast.walk, which visits every node of the
subtree.  Only the node kind (which isinstance test it satisfies) and, for
BoolOp, the number of operand values matter to _calculate_complexity, so a
node is a kind together with its child nodes; the children of a boolOp node
are its operand values.  ifExp is the Python conditional expression
(ternary); functionDef covers FunctionDef and AsyncFunctionDef nodes. -/

inductive PyNodeKind where
  | ifStmt
  | whileStmt
  | forStmt
  | exceptHandler
  | boolOp
  | ifExp
  | functionDef
  | other
deriving DecidableEq

mutual
inductive PyNode where
  | node (kind : PyNodeKind) (children : PyNodeList)
deriving DecidableEq
inductive PyNodeList where
  | nil
  | cons (hd : PyNode) (tl : PyNodeList)
deriving DecidableEq
end

def PyNodeList.length : PyNodeList → Nat
  | .nil => 0
  | .cons _ tl => tl.length + 1

/-- The per-node contribution inside the ast.walk loop of
_calculate_complexity: +1 for If, While, For, ExceptHandler;
+(len(values) - 1) for BoolOp; nothing otherwise. -/
def nodeIncrement (k : PyNodeKind) (cs : PyNodeList) : Int :=
  match k with
  | .ifStmt => 1
  | .whileStmt => 1
  | .forStmt => 1
  | .exceptHandler => 1
  | .boolOp => (cs.length : Int) - 1
  | _ => 0

mutual
/-- Sum of nodeIncrement over every node of the subtree (ast.walk order is
irrelevant to the sum). -/
def walkComplexity : PyNode → Int
  | .node k cs => nodeIncrement k cs + walkComplexityList cs
def walkComplexityList : PyNodeList → Int
  | .nil => 0
  | .cons c rest => walkComplexity c + walkComplexityList rest
end

/-- DistributedCodeIndexer._calculate_complexity: complexity starts at 1 and
accumulates nodeIncrement over ast.walk of the function node. -/
def _calculate_complexity (fn : PyNode) : Int :=
  1 + walkComplexity fn

/-! Claim-side counting functions, written compositionally from the words of
the specification: one counter per construct family. -/

mutual
/-- Number of nodes of the subtree whose kind satisfies p. -/
def countNodes (p : PyNodeKind → Bool) : PyNode → Nat
  | .node k cs => (if p k then 1 else 0) + countNodesList p cs
def countNodesList (p : PyNodeKind → Bool) : PyNodeList → Nat
  | .nil => 0
  | .cons c rest => countNodes p c + countNodesList p rest
end

mutual
/-- Sum over every N-operand boolean combinator of the subtree of N - 1. -/
def boolOpExtra : PyNode → Int
  | .node k cs => (if k = PyNodeKind.boolOp then (cs.length : Int) - 1 else 0) + boolOpExtraList cs
def boolOpExtraList : PyNodeList → Int
  | .nil => 0
  | .cons c rest => boolOpExtra c + boolOpExtraList rest
end

/-- Conditional constructs in the sense of the claim: Python calls both the
if statement and the ternary expression (ast.IfExp) a conditional. -/
def isConditionalKind (k : PyNodeKind) : Bool :=
  k = PyNodeKind.ifStmt || k = PyNodeKind.ifExp

def isLoopKind (k : PyNodeKind) : Bool :=
  k = PyNodeKind.whileStmt || k = PyNodeKind.forStmt

def isHandlerKind (k : PyNodeKind) : Bool :=
  k = PyNodeKind.exceptHandler

def isIfStmtKind (k : PyNodeKind) : Bool :=
  k = PyNodeKind.ifStmt

/-- The complexity the claim describes: 1, plus 1 per branching construct
(conditional, loop, exception handler), plus N - 1 per N-way boolean
combinator. -/
def claimComplexity (fn : PyNode) : Int :=
  1 + (countNodes isConditionalKind fn : Int) + (countNodes isLoopKind fn : Int)
    + (countNodes isHandlerKind fn : Int) + boolOpExtra fn

/-- The amended complexity: identical except that only conditional
statements (ast.If) count; conditional expressions (ast.IfExp) do not. -/
def amendedComplexity (fn : PyNode) : Int :=
  1 + (countNodes isIfStmtKind fn : Int) + (countNodes isLoopKind fn : Int)
    + (countNodes isHandlerKind fn : Int) + boolOpExtra fn

/-- A function whose body is a single conditional expression, e.g.
def f(b): return 1 if b else 2 (the three child expressions carry no
further branching). -/
def c9FunctionNode : PyNode :=
  PyNode.node PyNodeKind.functionDef
    (PyNodeList.cons
      (PyNode.node PyNodeKind.ifExp
        (PyNodeList.cons (PyNode.node PyNodeKind.other PyNodeList.nil)
          (PyNodeList.cons (PyNode.node PyNodeKind.other PyNodeList.nil)
            (PyNodeList.cons (PyNode.node PyNodeKind.other PyNodeList.nil) PyNodeList.nil))))
      PyNodeList.nil)

/-! ## String constants used by the indexer -/

def emptyStr : String := ""
def dotStr : String := "."
def underscoreStr : String := "_"
def slashStr : String := "/"
def pyExtStr : String := ".py"
def indexJsonStr : String := "index.json"
def repoIndexJsonStr : String := "repo_index.json"
def nodeModulesStr : String := "node_modules"
def pycacheStr : String := "__pycache__"
def venvStr : String := "venv"
def dotVenvStr : String := ".venv"
def distStr : String := "dist"
def buildStr : String := "build"
def osStr : String := "os"
def sysStr : String := "sys"
def jsonStr : String := "json"
def reStr : String := "re"
def pythonStr : String := "python"
def classStr : String := "class"
def functionStr : String := "function"
def methodStr : String := "method"
def fileStr : String := "file"
def sPythonFileWith : String := "Python file with "
def sLines : String := " lines"
def sContains : String := "Contains "
def sCodeElements : String := " code elements"
def sDirectoryWith : String := "Directory with "
def sFiles : String := " files"
def sFilesAnd : String := " files and "
def sSubdirectories : String := " subdirectories"
def sA : String := "A "
def sRepositoryWith : String := " repository with "
def sDash : String := "- "
def sDashClass : String := "- Class: "
def sColon : String := ": "
def sSlashColon : String := "/: "
def sOpenParen : String := " ("
def sMethodsClose : String := " methods)"
def sCommaSpace : String := ", "
def sNone : String := "none"
def sDistributedIndexWith : String := "Distributed index with "
def sDirectories : String := " directories"
def dotChar : Char := '.'

/-! Character-level formulations of the Python string tests (str.startswith,
str.endswith, substring membership of a single character).  They agree with
String.startsWith, String.endsWith and String.contains; the character-list
forms are used because the kernel evaluates them directly. -/

def pyStartsWith (s pre : String) : Bool :=
  s.data.take pre.data.length == pre.data

def pyEndsWith (s suf : String) : Bool :=
  s.data.drop (s.data.length - suf.data.length) == suf.data

def pyContainsChar (s : String) (c : Char) : Bool :=
  s.data.contains c

/-- The common-ignore list of _index_directory
(node_modules, pycache, venv, .venv, dist, build). -/
def ignoreNamesList : List String :=
  [nodeModulesStr, pycacheStr, venvStr, dotVenvStr, distStr, buildStr]

/-- The skip test applied to every listed entry: hidden names and the
common-ignore list. -/
def pyIgnoredName (item : String) : Bool :=
  pyStartsWith item dotStr || ignoreNamesList.contains item

/-- Python truthiness of an optional string: None and the empty string are
falsy. -/
def pyTruthyStr : Option String → Bool
  | none => false
  | some s => !(s == emptyStr)

/-- Cosmetic rendering of a component path, used only to build prompt
lines. -/
def joinPath (p : List String) : String := String.intercalate slashStr p

/-! ## Data model (distributed_models.py)

Fields that no claim mentions and that carry no logic (absolute line/column
positions, signature text, timestamps) are omitted from the records; every
field that participates in aggregation, summaries or persistence is kept,
with the defaults of the pydantic models. -/

inductive CodeLanguage where
  | python | javascript | typescript | java | go | rust | other
deriving DecidableEq

inductive CodeElementType where
  | file | cls | function | method
deriving DecidableEq

/-- The .value string of the CodeElementType enum (cls stands for the
Python member named class, a reserved word in Lean). -/
def CodeElementType.value : CodeElementType → String
  | .file => fileStr
  | .cls => classStr
  | .function => functionStr
  | .method => methodStr

structure CodeElementMetadata where
  name : String
  element_type : CodeElementType
  summary : Option String := none
  complexity : Option Int := none
  is_public : Bool := true
  children : List CodeElementMetadata := []

structure FileMetadata where
  file_path : List String
  relative_path : List String
  language : CodeLanguage := CodeLanguage.python
  summary : Option String := none
  total_lines : Nat := 0
  elements : List CodeElementMetadata := []
  imports : List String := []
  exports : List String := []
  file_hash : Option String := none

structure SubdirectoryReference where
  dir_name : String
  dir_path : List String
  relative_path : List String
  index_file_path : List String
  summary : Option String := none
  file_count : Nat := 0
  subdir_count : Nat := 0

structure DirectoryIndex where
  dir_path : List String
  relative_path : List String
  index_file_path : List String
  summary : Option String := none
  parent_index_path : Option (List String) := none
  files : List FileMetadata := []
  subdirectories : List SubdirectoryReference := []
  direct_file_count : Nat := 0
  total_file_count : Nat := 0
  total_lines : Nat := 0

structure RepositoryIndex where
  repo_id : String
  name : String
  repo_path : List String
  index_root_path : List String
  root_index_path : List String
  summary : Option String := none
  architecture_description : Option String := none
  primary_language : String := pythonStr
  total_files : Nat := 0
  total_lines : Nat := 0
  total_classes : Nat := 0
  total_functions : Nat := 0
  total_methods : Nat := 0
  total_directories : Nat := 0
  entry_points : List String := []
  external_dependencies : List String := []
deriving DecidableEq

/-! ## Source-side abstraction of one Python file -/

/-- A top-level item of a class body; only FunctionDef/AsyncFunctionDef
items become methods, everything else is skipped by the extractor. -/
inductive PyClassItem where
  | methodDef (name : String) (fn : PyNode)
  | otherItem

/-- A top-level statement of a parsed module, as dispatched by the
isinstance tests over tree.body. -/
inductive PyTop where
  | classDef (name : String) (body : List PyClassItem)
  | functionDef (name : String) (fn : PyNode)
  | asyncFunctionDef (name : String) (fn : PyNode)
  | otherStmt

/-- The ast.parse result as the extractor consumes it: the top-level body
and the Import/ImportFrom names collected by the ast.walk loop (kept here
in walk order). -/
structure PySrcModule where
  body : List PyTop := []
  walkedImports : List String := []

/-- One file of the source tree, abstracted to the observables the indexer
derives from its raw content: readability, len of splitlines, the
ast.parse outcome (none is a SyntaxError) and the md5 digest of the raw
bytes.  Byte-identical files have identical observables. -/
structure SrcFile where
  readable : Bool := true
  total_lines : Nat := 0
  parsed : Option PySrcModule := none
  digest : String := emptyStr

/-! ## Summary cache (self.summary_cache, a Python dict)

The key type is Option String because the batch pass stores under
file_metadata.file_hash, which is None for records whose hash was never
assigned (Python dicts accept None keys). -/

abbrev Cache := List (Option String × String)

def cacheLookup (c : Cache) (k : Option String) : Option String :=
  match c.find? (fun pr => pr.1 == k) with
  | some pr => some pr.2
  | none => none

def cacheInsert (c : Cache) (k : Option String) (v : String) : Cache :=
  if (c.find? (fun pr => pr.1 == k)).isSome then
    c.map (fun pr => if pr.1 == k then (k, v) else pr)
  else c ++ [(k, v)]

/-! ## The chat-completion backend as a parameter

Each field models one prompt shape; the argument lists are exactly the
data interpolated into the corresponding prompt.  A result of none models
the API call raising (timeout, transport error), which the Python code
catches where a try/except is present. -/

structure Env where
  fileSummary : List String → Nat → String → List String → Option String :=
    fun _ _ _ _ => none
  dirSummary : List String → Nat → Nat → List String → List String → Option String :=
    fun _ _ _ _ _ => none
  repoSummary : String → Nat → Nat → Nat → Nat → Nat → List String → List String → List String → Option String :=
    fun _ _ _ _ _ _ _ _ _ => none
  md5hex : List String → String := fun _ => emptyStr

/-- DistributedCodeIndexer._generate_id: md5 hexdigest of the path,
truncated to 12 characters. -/
def _generate_id (env : Env) (p : List String) : String :=
  String.mk ((env.md5hex p).data.take 12)

/-! ## Structural extraction (_extract_class_metadata,
_extract_function_metadata) -/

def _extract_function_metadata (name : String) (fn : PyNode) (is_method : Bool) : CodeElementMetadata :=
  { name := name,
    element_type := if is_method then CodeElementType.method else CodeElementType.function,
    complexity := some (_calculate_complexity fn),
    is_public := !(pyStartsWith name underscoreStr),
    children := [] }

def _extract_class_metadata (name : String) (body : List PyClassItem) : CodeElementMetadata :=
  { name := name,
    element_type := CodeElementType.cls,
    is_public := !(pyStartsWith name underscoreStr),
    children := body.filterMap (fun it =>
      match it with
      | PyClassItem.methodDef n fn => some (_extract_function_metadata n fn true)
      | PyClassItem.otherItem => none) }

/-- The dispatch over tree.body in _index_python_file: ClassDef,
FunctionDef and AsyncFunctionDef become elements, every other statement is
skipped. -/
def extractTopLevel : PyTop → Option CodeElementMetadata
  | PyTop.classDef n body => some (_extract_class_metadata n body)
  | PyTop.functionDef n fn => some (_extract_function_metadata n fn false)
  | PyTop.asyncFunctionDef n fn => some (_extract_function_metadata n fn false)
  | PyTop.otherStmt => none

/-- DistributedCodeIndexer._index_python_file.  none models the early
return None on a read error.  A SyntaxError returns the element-free
record at once, skipping the summary/caching block entirely.  A cache hit
attaches the cached summary; a miss leaves summary empty and records
file_hash for the later batch pass. -/
def _index_python_file (generate_summaries : Bool) (file_path relative_path : List String)
    (f : SrcFile) (cache : Cache) : Option FileMetadata :=
  if !f.readable then none
  else
    let base : FileMetadata :=
      { file_path := file_path, relative_path := relative_path,
        language := CodeLanguage.python, total_lines := f.total_lines }
    match f.parsed with
    | none => some base
    | some m =>
      let fm := { base with
        imports := m.walkedImports,
        elements := m.body.filterMap extractTopLevel }
      if generate_summaries then
        match cacheLookup cache (some f.digest) with
        | some s => some { fm with summary := some s }
        | none => some { fm with file_hash := some f.digest }
      else some fm

/-! ## File-summary generation and the per-directory batch pass -/

/-- One line of the Code Elements block of the file prompt. -/
def elementDesc (e : CodeElementMetadata) : String :=
  match e.element_type with
  | CodeElementType.cls =>
      sDashClass ++ e.name ++ sOpenParen ++ toString e.children.length ++ sMethodsClose
  | t => sDash ++ t.value ++ sColon ++ e.name

/-- DistributedCodeIndexer._generate_file_summary_sync.  An element-free
record returns the structural fallback without any API call; otherwise the
prompt is built from the relative path, the line count, the first five
imports and the first ten element descriptions, and the API result is
returned (none = the call raised, which this function propagates). -/
def _generate_file_summary_sync (env : Env) (fm : FileMetadata) : Option String :=
  if fm.elements.isEmpty then
    some (sPythonFileWith ++ toString fm.total_lines ++ sLines)
  else
    let elements_desc := (fm.elements.take 10).map elementDesc
    let imports_str :=
      if fm.imports.isEmpty then sNone
      else String.intercalate sCommaSpace (fm.imports.take 5)
    env.fileSummary fm.relative_path fm.total_lines imports_str elements_desc

/-- generate_one_summary, the worker task of
_batch_generate_file_summaries: it returns the pair (file_hash, summary),
where a raising API call is caught and replaced by the structural
fallback. -/
def generate_one_summary (env : Env) (fm : FileMetadata) : Option String × String :=
  (fm.file_hash,
    match _generate_file_summary_sync env fm with
    | some s => s
    | none => sContains ++ toString fm.elements.length ++ sCodeElements)

/-- The filter building files_to_summarize: not f.summary (Python
truthiness, so None and the empty string both qualify).  The accompanying
hasattr test is always true, because file_hash is a declared pydantic
field. -/
def needsSummary (fm : FileMetadata) : Bool :=
  !(pyTruthyStr fm.summary)

/-- The effect of the batch pass on one record: a record needing a summary
is submitted to a worker (the second component records the submitted
invocation as the pair the worker returns), every other record is left
untouched. -/
def batchStep (env : Env) (fm : FileMetadata) : FileMetadata × Option (Option String × String) :=
  if needsSummary fm then
    let r := generate_one_summary env fm
    ({ fm with summary := some r.2 }, some r)
  else (fm, none)

/-- DistributedCodeIndexer._batch_generate_file_summaries: every submitted
worker writes its summary into its record and inserts it into the shared
cache under its file_hash.  The thread pool completes the tasks in a
nondeterministic order; since each insert is determined by its own record
the resulting record list and cache contents are order-independent, and
the inserts are modelled in submission order.  The third component is the
invocation trace: the file_hash of each record submitted to a worker. -/
def _batch_generate_file_summaries (env : Env) (files : List FileMetadata) (cache : Cache) :
    List FileMetadata × Cache × List (Option String) :=
  let stepped := files.map (batchStep env)
  let updates := stepped.filterMap Prod.snd
  (stepped.map Prod.fst,
   updates.foldl (fun c kv => cacheInsert c kv.1 kv.2) cache,
   updates.map Prod.fst)

/-! ## Directory and repository summaries -/

/-- The line contributed by one file to a directory (or repository) prompt,
guarded by Python truthiness of file.summary. -/
def fileSummaryLine (f : FileMetadata) : Option String :=
  match f.summary with
  | some s => if s == emptyStr then none else some (sDash ++ joinPath f.relative_path ++ sColon ++ s)
  | none => none

/-- The line contributed by one subdirectory reference, guarded by Python
truthiness of subdir.summary. -/
def subdirSummaryLine (sd : SubdirectoryReference) : Option String :=
  match sd.summary with
  | some s => if s == emptyStr then none else some (sDash ++ joinPath sd.relative_path ++ sSlashColon ++ s)
  | none => none

/-- The File Summaries block of the directory prompt: the first ten files
(in directory order). -/
def dirSummaryFileLines (files : List FileMetadata) : List String :=
  (files.take 10).filterMap fileSummaryLine

/-- The Subdirectory Summaries block of the directory prompt: the first
five subdirectory references (in directory order). -/
def dirSummarySubdirLines (subs : List SubdirectoryReference) : List String :=
  (subs.take 5).filterMap subdirSummaryLine

/-- DistributedCodeIndexer._generate_directory_summary: with no collected
lines at all the structural fallback is returned without an API call;
otherwise the prompt is built from the relative path, the file and
subdirectory counts and the two line blocks, and a raising call is
replaced by the second fallback. -/
def _generate_directory_summary (env : Env) (d : DirectoryIndex) : String :=
  let file_summaries := dirSummaryFileLines d.files
  let subdir_summaries := dirSummarySubdirLines d.subdirectories
  if file_summaries.isEmpty && subdir_summaries.isEmpty then
    sDirectoryWith ++ toString d.files.length ++ sFiles
  else
    match env.dirSummary d.relative_path d.files.length d.subdirectories.length
        file_summaries subdir_summaries with
    | some s => s
    | none =>
        sDirectoryWith ++ toString d.files.length ++ sFilesAnd
          ++ toString d.subdirectories.length ++ sSubdirectories

/-- DistributedCodeIndexer._generate_repo_summary: prompt built from the
repository statistics, the first ten top-level subdirectory summaries and
the first five root file summaries; a raising call is replaced by the
structural fallback. -/
def _generate_repo_summary (env : Env) (repoIdx : RepositoryIndex) (root : DirectoryIndex) : String :=
  let dir_summaries := (root.subdirectories.take 10).filterMap subdirSummaryLine
  let file_summaries := (root.files.take 5).filterMap fileSummaryLine
  match env.repoSummary repoIdx.name repoIdx.total_files repoIdx.total_lines
      repoIdx.total_classes repoIdx.total_functions repoIdx.total_methods
      (repoIdx.external_dependencies.take 10) dir_summaries file_summaries with
  | some s => s
  | none => sA ++ repoIdx.primary_language ++ sRepositoryWith ++ toString repoIdx.total_files ++ sFiles

/-! ## The source tree

An input directory is a listing of named entries; the list models the
sorted(os.listdir(...)) order.  A directory entry carries readable = false
when os.listdir on it raises PermissionError.  A dedicated list type keeps
every recursion over the tree structural, so that all definitions evaluate
by kernel reduction. -/

mutual
inductive SrcEntry where
  | file (name : String) (f : SrcFile)
  | dir (name : String) (readable : Bool) (entries : SrcEntryList)
inductive SrcEntryList where
  | nil
  | cons (e : SrcEntry) (rest : SrcEntryList)
end

def SrcEntryList.toList : SrcEntryList → List SrcEntry
  | .nil => []
  | .cons e rest => e :: rest.toList

/-! ## Indexer state: the shared cache and the effect traces -/

/-- The mutable state threaded through the walk: self.summary_cache, the
trace of persisted directory artifacts (path, record) in write order, and
the trace of file-summary worker invocations (the file_hash each submitted
record carried). -/
structure IState where
  cache : Cache := []
  writes : List (List String × DirectoryIndex) := []
  invocations : List (Option String) := []

/-! ## The files pass of _index_directory (first loop over items) -/

/-- Treatment of a single listed entry by the first loop: skip ignored
names, call _index_python_file on regular files ending in .py, ignore
everything else (directories are handled by the second loop). -/
def fileEntryMetadata (generate_summaries : Bool) (dp rel : List String) (cache : Cache) :
    SrcEntry → Option FileMetadata
  | SrcEntry.file n f =>
      if pyIgnoredName n then none
      else if pyEndsWith n pyExtStr then
        _index_python_file generate_summaries (dp ++ [n]) (rel ++ [n]) f cache
      else none
  | SrcEntry.dir _ _ _ => none

/-- The first loop of _index_directory: the FileMetadata records appended
to dir_index.files, in listing order (direct_file_count is incremented
exactly once per appended record). -/
def indexFilesPass (generate_summaries : Bool) (dp rel : List String)
    (l : List SrcEntry) (cache : Cache) : List FileMetadata :=
  l.filterMap (fileEntryMetadata generate_summaries dp rel cache)

/-- The DirectoryIndex as constructed before the listing, which is what
_index_directory returns when os.listdir raises PermissionError (note: it
is returned without being persisted). -/
def emptyDirIndex (dp rel ifp : List String) (pip : Option (List String)) : DirectoryIndex :=
  { dir_path := dp, relative_path := rel, index_file_path := ifp, parent_index_path := pip }

/-- The SubdirectoryReference built from a finished child index. -/
def mkSubdirRef (n : String) (cdp : List String) (child : DirectoryIndex) : SubdirectoryReference :=
  { dir_name := n,
    dir_path := cdp,
    relative_path := child.relative_path,
    index_file_path := child.index_file_path,
    summary := child.summary,
    file_count := child.total_file_count,
    subdir_count := child.subdirectories.length }

/-- The tail of _index_directory after both loops: aggregate the counts
(total_file_count starts from direct_file_count and accumulates each
reference file_count; total_lines sums the direct files only), run the
batch summary pass over the files of this directory, generate the
directory summary when the directory has files or subdirectories, persist
the finished record at its index path, and return it. -/
def finishDirectory (env : Env) (generate_summaries : Bool) (dp rel ifp : List String)
    (pip : Option (List String)) (fms : List FileMetadata)
    (refs : List SubdirectoryReference) (st : IState) : DirectoryIndex × IState :=
  let direct := fms.length
  let total_file_count := refs.foldl (fun acc r => acc + r.file_count) direct
  let total_lines := (fms.map (fun f => f.total_lines)).sum
  let batched :=
    if generate_summaries && !fms.isEmpty then
      _batch_generate_file_summaries env fms st.cache
    else (fms, st.cache, [])
  let d1 : DirectoryIndex :=
    { dir_path := dp, relative_path := rel, index_file_path := ifp, parent_index_path := pip,
      files := batched.1, subdirectories := refs, direct_file_count := direct,
      total_file_count := total_file_count, total_lines := total_lines }
  let d2 :=
    if generate_summaries && (!d1.files.isEmpty || !d1.subdirectories.isEmpty) then
      { d1 with summary := some (_generate_directory_summary env d1) }
    else d1
  (d2, { cache := batched.2.1,
         writes := st.writes ++ [(ifp, d2)],
         invocations := st.invocations ++ batched.2.2 })

/-! ## The recursive walk (second loop of _index_directory)

The recursion is kept structural by inlining the directory body into the
subdirectory case of the loop; _index_directory below states the same body
once and an equation lemma identifies the two. -/

mutual
/-- Treatment of one listed entry by the second loop: ignored names and
files contribute nothing; a subdirectory is indexed recursively (bottom-up)
and wrapped as a SubdirectoryReference.  The inlined body is exactly
_index_directory applied to the child. -/
def indexEntryAsSubdir (env : Env) (generate_summaries : Bool) (oroot : List String)
    (dp rel ifp : List String) (st : IState) :
    SrcEntry → Option SubdirectoryReference × IState
  | SrcEntry.file _ _ => (none, st)
  | SrcEntry.dir n rd es =>
    if pyIgnoredName n then (none, st)
    else
      let cdp := dp ++ [n]
      let crel := rel ++ [n]
      let cifp := oroot ++ crel ++ [indexJsonStr]
      let child :=
        if !rd then (emptyDirIndex cdp crel cifp (some ifp), st)
        else
          let fms := indexFilesPass generate_summaries cdp crel es.toList st.cache
          let sub := indexSubdirsOf env generate_summaries oroot cdp crel cifp es st
          finishDirectory env generate_summaries cdp crel cifp (some ifp) fms sub.1 sub.2
      (some (mkSubdirRef n cdp child.1), child.2)
  termination_by structural e => e

/-- The second loop of _index_directory over the listing, producing
dir_index.subdirectories in listing order and threading the shared
state. -/
def indexSubdirsOf (env : Env) (generate_summaries : Bool) (oroot : List String)
    (dp rel ifp : List String) (l : SrcEntryList) (st : IState) :
    List SubdirectoryReference × IState :=
  match l with
  | SrcEntryList.nil => ([], st)
  | SrcEntryList.cons e rest =>
    let one := indexEntryAsSubdir env generate_summaries oroot dp rel ifp st e
    let more := indexSubdirsOf env generate_summaries oroot dp rel ifp rest one.2
    match one.1 with
    | some r => (r :: more.1, more.2)
    | none => (more.1, more.2)
  termination_by structural l
end

/-- DistributedCodeIndexer._index_directory.  dp is the directory path,
rel its path relative to the repository root ([] stands for the Python
value "."), so the artifact path is output_root for the root and
output_root/rel otherwise, always ending in index.json.  A PermissionError
from os.listdir returns the empty index immediately (without persisting
it); otherwise the files pass, the recursive subdirectory pass and the
aggregation/summary/persist tail run in order. -/
def _index_directory (env : Env) (generate_summaries : Bool) (oroot : List String)
    (dp rel : List String) (readable : Bool) (entries : SrcEntryList)
    (pip : Option (List String)) (st : IState) : DirectoryIndex × IState :=
  let ifp := oroot ++ rel ++ [indexJsonStr]
  if !readable then (emptyDirIndex dp rel ifp pip, st)
  else
    let fms := indexFilesPass generate_summaries dp rel entries.toList st.cache
    let sub := indexSubdirsOf env generate_summaries oroot dp rel ifp entries st
    finishDirectory env generate_summaries dp rel ifp pip fms sub.1 sub.2

/-! ## The statistics pass (_calculate_statistics) -/

inductive RunError where
  | nameErrorIndexDir
  | missingArtifact (path : List String)
  | recursionLimit
deriving DecidableEq

/-- Reading a persisted DirectoryIndex back from disk; none models
FileNotFoundError from open (the artifact was never written).  The
pydantic round trip drops only the excluded file_hash field, which the
statistics pass never reads, so the persisted record is used as is. -/
def storeLookup (w : List (List String × DirectoryIndex)) (p : List String) : Option DirectoryIndex :=
  match w.find? (fun pr => pr.1 == p) with
  | some pr => some pr.2
  | none => none

/-- The element loop of traverse: classes count themselves and their
methods, functions count themselves, every other element type is
ignored. -/
def statAddElement (acc : RepositoryIndex) (e : CodeElementMetadata) : RepositoryIndex :=
  match e.element_type with
  | CodeElementType.cls =>
      { acc with
        total_classes := acc.total_classes + 1,
        total_methods := acc.total_methods + e.children.length }
  | CodeElementType.function =>
      { acc with total_functions := acc.total_functions + 1 }
  | _ => acc

/-- The import loop of traverse: an import with no dot that is not a
listed builtin is appended once to external_dependencies. -/
def statAddImport (acc : RepositoryIndex) (imp : String) : RepositoryIndex :=
  if !(pyContainsChar imp dotChar) && !([osStr, sysStr, jsonStr, reStr].contains imp)
      && !(acc.external_dependencies.contains imp) then
    { acc with external_dependencies := acc.external_dependencies ++ [imp] }
  else acc

def statAddFile (acc : RepositoryIndex) (f : FileMetadata) : RepositoryIndex :=
  f.imports.foldl statAddImport (f.elements.foldl statAddElement acc)

/-- The per-directory body of traverse: one directory, its direct file
count, the line sum of its direct files, then the per-file element
statistics and dependency statistics. -/
def statAddDir (acc : RepositoryIndex) (d : DirectoryIndex) : RepositoryIndex :=
  let acc1 :=
    { acc with
      total_directories := acc.total_directories + 1,
      total_files := acc.total_files + d.direct_file_count,
      total_lines := acc.total_lines + (d.files.map (fun f => f.total_lines)).sum }
  d.files.foldl statAddFile acc1

/-- The recursive traverse of _calculate_statistics: process the record,
then open every referenced child artifact and recurse into it.  The fuel
argument models the Python recursion (any fuel larger than the tree depth
behaves identically); a missing artifact is the uncaught FileNotFoundError
raised by open. -/
def traverseStats (w : List (List String × DirectoryIndex)) :
    Nat → RepositoryIndex → DirectoryIndex → Except RunError RepositoryIndex
  | 0, _, _ => Except.error RunError.recursionLimit
  | fuel + 1, acc, d =>
    d.subdirectories.foldlM
      (fun a ref =>
        match storeLookup w ref.index_file_path with
        | none => Except.error (RunError.missingArtifact ref.index_file_path)
        | some sub => traverseStats w fuel a sub)
      (statAddDir acc d)

/-- DistributedCodeIndexer._calculate_statistics: traverse starting from
the in-memory root index, loading every subdirectory index from disk. -/
def _calculate_statistics (w : List (List String × DirectoryIndex)) (fuel : Nat)
    (repoIdx : RepositoryIndex) (root : DirectoryIndex) : Except RunError RepositoryIndex :=
  traverseStats w fuel repoIdx root

/-! ## index_repository -/

/-- DistributedCodeIndexer.index_repository.  Returns the run outcome
together with the directory-artifact trace and the repository-artifact
trace (writes performed before an abort remain in the traces).  After the
statistics pass, the optional summary step and the repo_index.json write,
the completion banner evaluates the name index_dir, which is not defined
anywhere in the scope of index_repository: Python raises NameError there,
before the return statement, so the function never returns normally. -/
def index_repository (env : Env) (statsFuel : Nat) (repo_path output_dir : List String)
    (rootReadable : Bool) (rootEntries : SrcEntryList) (generate_summaries : Bool) :
    Except RunError RepositoryIndex × IState × List (List String × RepositoryIndex) :=
  let walk := _index_directory env generate_summaries output_dir repo_path [] rootReadable
    rootEntries none {}
  let root_index := walk.1
  let st := walk.2
  let repo0 : RepositoryIndex :=
    { repo_id := _generate_id env repo_path,
      name := repo_path.getLastD emptyStr,
      repo_path := repo_path,
      index_root_path := output_dir,
      root_index_path := root_index.index_file_path,
      primary_language := pythonStr }
  match _calculate_statistics st.writes statsFuel repo0 root_index with
  | Except.error e => (Except.error e, st, [])
  | Except.ok repo1 =>
    let repo2 :=
      if generate_summaries then
        { repo1 with
          summary := some (_generate_repo_summary env repo1 root_index),
          architecture_description :=
            some (sDistributedIndexWith ++ toString repo1.total_directories ++ sDirectories) }
      else repo1
    (Except.error RunError.nameErrorIndexDir, st,
     [(output_dir ++ [repoIndexJsonStr], repo2)])

/-! ## Specification-side auxiliary functions over the source tree -/

def entryName : SrcEntry → String
  | SrcEntry.file n _ => n
  | SrcEntry.dir n _ _ => n

mutual
/-- Every directory the walk actually lists is readable (ignored
subtrees are never listed, so they are unconstrained). -/
def entryAllReadable : SrcEntry → Bool
  | .file _ _ => true
  | .dir n rd es => pyIgnoredName n || (rd && entriesAllReadable es)
def entriesAllReadable : SrcEntryList → Bool
  | .nil => true
  | .cons e rest => entryAllReadable e && entriesAllReadable rest
end

/-- The files of a listing that yield a FileMetadata record: non-ignored
regular .py files that can be read. -/
def eligibleSrcFileB : SrcEntry → Bool
  | .file n f => !pyIgnoredName n && pyEndsWith n pyExtStr && f.readable
  | .dir _ _ _ => false

def eligibleFileCount (l : List SrcEntry) : Nat :=
  (l.filter eligibleSrcFileB).length

mutual
/-- Transitive indexed-file count of one entry (0 for files; for a
directory, its direct eligible files plus the counts of its listed
subtrees, and 0 when it is ignored or unreadable). -/
def entryTransCount : SrcEntry → Nat
  | .file _ _ => 0
  | .dir n rd es =>
    if pyIgnoredName n then 0
    else if rd then eligibleFileCount es.toList + entriesTransCount es
    else 0
def entriesTransCount : SrcEntryList → Nat
  | .nil => 0
  | .cons e rest => entryTransCount e + entriesTransCount rest
end

/-- Transitive indexed-file count of a directory with a given
readability and listing. -/
def dirTransCount (rd : Bool) (es : SrcEntryList) : Nat :=
  if rd then eligibleFileCount es.toList + entriesTransCount es else 0

/-- The optional reference count one listed entry contributes to its
parent (none for files and ignored names). -/
def entryCountOpt : SrcEntry → Option Nat
  | SrcEntry.file _ _ => none
  | SrcEntry.dir n rd es => if pyIgnoredName n then none else some (dirTransCount rd es)

/-- The per-entry list of reference file counts produced by the second
loop, in listing order. -/
def entriesCountsList : SrcEntryList → List Nat
  | .nil => []
  | .cons (SrcEntry.file _ _) rest => entriesCountsList rest
  | .cons (SrcEntry.dir n rd es) rest =>
      (if pyIgnoredName n then [] else [dirTransCount rd es]) ++ entriesCountsList rest

mutual
/-- Relative paths of the directory artifacts persisted while processing
one listed entry, in write order (children before the directory itself;
ignored and unreadable directories persist nothing). -/
def entrySubPaths (rel : List String) : SrcEntry → List (List String)
  | .file _ _ => []
  | .dir n rd es =>
    if pyIgnoredName n then []
    else if rd then entriesSubPaths (rel ++ [n]) es ++ [rel ++ [n]]
    else []
def entriesSubPaths (rel : List String) : SrcEntryList → List (List String)
  | .nil => []
  | .cons e rest => entrySubPaths rel e ++ entriesSubPaths rel rest
end

mutual
/-- Nesting depth of the listed (non-ignored) directories. -/
def entryDepth : SrcEntry → Nat
  | .file _ _ => 0
  | .dir n _ es => if pyIgnoredName n then 0 else entriesDepth es + 1
def entriesDepth : SrcEntryList → Nat
  | .nil => 0
  | .cons e rest => max (entryDepth e) (entriesDepth rest)
end

def namesNodup (l : SrcEntryList) : Bool :=
  decide ((l.toList.map entryName).Nodup)

mutual
/-- Sibling names are distinct at every level, as os.listdir guarantees
for a real file system. -/
def entryWf : SrcEntry → Bool
  | .file _ _ => true
  | .dir _ _ es => namesNodup es && entriesWfAux es
def entriesWfAux : SrcEntryList → Bool
  | .nil => true
  | .cons e rest => entryWf e && entriesWfAux rest
end

def entriesWf (l : SrcEntryList) : Bool :=
  namesNodup l && entriesWfAux l

/-- The claim-side eligibility test of C10: a regular file whose name ends
in .py, does not start with a dot and is not in the ignore set. -/
def eligiblePyFile : SrcEntry → Bool
  | SrcEntry.file n _ =>
      pyEndsWith n pyExtStr && !(pyStartsWith n dotStr) && !(ignoreNamesList.contains n)
  | SrcEntry.dir _ _ _ => false

/-- Resolvability of references through the persisted store, to the given
depth: every reference loads to a record whose own references are
resolvable one level lower. -/
def RefsOk (w : List (List String × DirectoryIndex)) : Nat → List SubdirectoryReference → Prop
  | 0, refs => refs = []
  | fuel + 1, refs =>
    ∀ ref ∈ refs, ∃ d, storeLookup w ref.index_file_path = some d ∧ RefsOk w fuel d.subdirectories

/-- Projection of a run outcome onto its error, used to state facts about
aborted runs without needing decidable equality of full repository
records. -/
def runOutcomeError : Except RunError RepositoryIndex → Option RunError
  | Except.error e => some e
  | Except.ok _ => none

/-! ## Concrete fixtures for the evaluated scenarios -/

def fooStr : String := "foo"
def aPyStr : String := "a.py"
def bPyStr : String := "b.py"
def subStr : String := "sub"
def outStr : String := "out"
def repoStr : String := "repo"
def h0Str : String := "h0"
def h3Str : String := "h3"
def sS : String := "S "
def sD : String := "D "
def sR : String := "repo summary"
def sW : String := "warm cached summary"
def sHex : String := "0123456789abcdef0123456789abcdef"

/-- A deterministic backend whose file summary depends on the relative
path interpolated into the prompt (as the real prompt does). -/
def env0 : Env :=
  { fileSummary := fun rel _ _ _ => some (sS ++ joinPath rel),
    dirSummary := fun rel _ _ _ _ => some (sD ++ joinPath rel),
    repoSummary := fun _ _ _ _ _ _ _ _ _ => some sR,
    md5hex := fun _ => sHex }

def fnNode : PyNode := PyNode.node PyNodeKind.functionDef PyNodeList.nil

/-- A module with a single top-level function (so the record has elements
and a real generator call happens for it). -/
def modOneFunction : PySrcModule :=
  { body := [PyTop.functionDef fooStr fnNode], walkedImports := [] }

/-- A readable, parseable 5-line file with digest h0. -/
def srcFileDup : SrcFile :=
  { readable := true, total_lines := 5, parsed := some modOneFunction, digest := h0Str }

/-- A readable, parseable, element-free 3-line file with digest h3. -/
def srcFile3 : SrcFile :=
  { readable := true, total_lines := 3, parsed := some {}, digest := h3Str }

/-- Root listing with no direct files and one subdirectory sub holding the
3-line file a.py. -/
def treeC1 : SrcEntryList :=
  SrcEntryList.cons (SrcEntry.dir subStr true
    (SrcEntryList.cons (SrcEntry.file aPyStr srcFile3) SrcEntryList.nil)) SrcEntryList.nil

/-- Root listing with two byte-identical files a.py and b.py (same
SrcFile, hence same digest). -/
def treeC3 : SrcEntryList :=
  SrcEntryList.cons (SrcEntry.file aPyStr srcFileDup)
    (SrcEntryList.cons (SrcEntry.file bPyStr srcFileDup) SrcEntryList.nil)

/-- Root listing with a single subdirectory whose os.listdir raises
PermissionError. -/
def treeC5 : SrcEntryList :=
  SrcEntryList.cons (SrcEntry.dir subStr false SrcEntryList.nil) SrcEntryList.nil

/-- A warm cache mapping digest h0 to the empty string (a generator answer
whose stripped content was empty in an earlier batch). -/
def cacheC8 : Cache := [(some h0Str, emptyStr)]

/-- A warm cache mapping digest h0 to a non-empty summary. -/
def cacheW : Cache := [(some h0Str, sW)]

/-! # Theorems

Induction principles for the mutual tree types, helper lemmas, and the
claim theorems. -/

mutual
theorem srcEntryInd (P : SrcEntry → Prop) (Q : SrcEntryList → Prop)
    (hf : ∀ n f, P (SrcEntry.file n f))
    (hd : ∀ n rd es, Q es → P (SrcEntry.dir n rd es))
    (hn : Q SrcEntryList.nil)
    (hc : ∀ e rest, P e → Q rest → Q (SrcEntryList.cons e rest)) :
    ∀ e, P e
  | SrcEntry.file n f => hf n f
  | SrcEntry.dir n rd es => hd n rd es (srcEntryListInd P Q hf hd hn hc es)
  termination_by structural e => e
theorem srcEntryListInd (P : SrcEntry → Prop) (Q : SrcEntryList → Prop)
    (hf : ∀ n f, P (SrcEntry.file n f))
    (hd : ∀ n rd es, Q es → P (SrcEntry.dir n rd es))
    (hn : Q SrcEntryList.nil)
    (hc : ∀ e rest, P e → Q rest → Q (SrcEntryList.cons e rest)) :
    ∀ l, Q l
  | SrcEntryList.nil => hn
  | SrcEntryList.cons e rest =>
      hc e rest (srcEntryInd P Q hf hd hn hc e) (srcEntryListInd P Q hf hd hn hc rest)
  termination_by structural l => l
end

mutual
theorem pyNodeInd (P : PyNode → Prop) (Q : PyNodeList → Prop)
    (hnode : ∀ k cs, Q cs → P (PyNode.node k cs))
    (hn : Q PyNodeList.nil)
    (hc : ∀ c rest, P c → Q rest → Q (PyNodeList.cons c rest)) :
    ∀ nd, P nd
  | PyNode.node k cs => hnode k cs (pyNodeListInd P Q hnode hn hc cs)
  termination_by structural nd => nd
theorem pyNodeListInd (P : PyNode → Prop) (Q : PyNodeList → Prop)
    (hnode : ∀ k cs, Q cs → P (PyNode.node k cs))
    (hn : Q PyNodeList.nil)
    (hc : ∀ c rest, P c → Q rest → Q (PyNodeList.cons c rest)) :
    ∀ l, Q l
  | PyNodeList.nil => hn
  | PyNodeList.cons c rest =>
      hc c rest (pyNodeInd P Q hnode hn hc c) (pyNodeListInd P Q hnode hn hc rest)
  termination_by structural l => l
end

theorem walkComplexity_split :
    (∀ nd, walkComplexity nd
        = (countNodes isIfStmtKind nd : Int) + (countNodes isLoopKind nd : Int)
          + (countNodes isHandlerKind nd : Int) + boolOpExtra nd)
  ∧ (∀ l, walkComplexityList l
        = (countNodesList isIfStmtKind l : Int) + (countNodesList isLoopKind l : Int)
          + (countNodesList isHandlerKind l : Int) + boolOpExtraList l) := by
  constructor
  · refine pyNodeInd _ (fun l => walkComplexityList l
        = (countNodesList isIfStmtKind l : Int) + (countNodesList isLoopKind l : Int)
          + (countNodesList isHandlerKind l : Int) + boolOpExtraList l) ?_ ?_ ?_
    · intro k cs ih
      cases k <;>
        simp [walkComplexity, countNodes, boolOpExtra, nodeIncrement,
              isIfStmtKind, isLoopKind, isHandlerKind, ih] <;> ring
    · rfl
    · intro c rest ihc ihr
      simp [walkComplexityList, countNodesList, boolOpExtraList, ihc, ihr]
      ring
  · refine pyNodeListInd (fun nd => walkComplexity nd
        = (countNodes isIfStmtKind nd : Int) + (countNodes isLoopKind nd : Int)
          + (countNodes isHandlerKind nd : Int) + boolOpExtra nd) _ ?_ ?_ ?_
    · intro k cs ih
      cases k <;>
        simp [walkComplexity, countNodes, boolOpExtra, nodeIncrement,
              isIfStmtKind, isLoopKind, isHandlerKind, ih] <;> ring
    · rfl
    · intro c rest ihc ihr
      simp [walkComplexityList, countNodesList, boolOpExtraList, ihc, ihr]
      ring

/-- C9 (amended): the stored complexity equals 1, plus 1 for each if
statement, while loop, for loop and exception handler in the walked
subtree, plus N - 1 for each N-operand boolean combinator; conditional
expressions are not counted. -/
theorem c9_complexity_formula (fn : PyNode) :
    _calculate_complexity fn = amendedComplexity fn := by
  have h := walkComplexity_split.1 fn
  unfold _calculate_complexity amendedComplexity
  rw [h]
  ring

/-- C9 counterexample: a function whose body is a single conditional
expression has stored complexity 1, while the claim formula (which counts
every conditional, including conditional expressions) gives 2. -/
theorem c9_counterexample_conditional_expression :
    _calculate_complexity c9FunctionNode = 1
  ∧ claimComplexity c9FunctionNode = 2
  ∧ ¬ (_calculate_complexity c9FunctionNode = claimComplexity c9FunctionNode) := by
  refine ⟨by decide, by decide, by decide⟩

/-- C10: the files pass of _index_directory computes the same record list
whether it scans the full listing or only the entries that are regular
files ending in .py, not starting with a dot and not in the ignore set;
every other entry therefore contributes nothing to the files list, and so
nothing to direct_file_count, total_lines, elements, imports, or any
statistic derived from them. -/
theorem c10_only_eligible_py_files_indexed (gs : Bool) (dp rel : List String)
    (l : List SrcEntry) (cache : Cache) :
    indexFilesPass gs dp rel l cache = indexFilesPass gs dp rel (l.filter eligiblePyFile) cache := by
  induction l with
  | nil => rfl
  | cons e rest ih =>
    cases e with
    | dir n rd es =>
      simpa [indexFilesPass, List.filterMap_cons, List.filter_cons,
             fileEntryMetadata, eligiblePyFile] using ih
    | file n f =>
      cases hs : pyStartsWith n dotStr <;> cases hc : ignoreNamesList.contains n <;>
        cases he : pyEndsWith n pyExtStr <;>
        simp_all [indexFilesPass, List.filterMap_cons, List.filter_cons,
                  fileEntryMetadata, eligiblePyFile, pyIgnoredName]

/-- C1 (code bug, failing input): the claim says total_lines of a directory
equals the sum over its direct files plus the transitive line counts of its
subdirectories.  On a root with no direct files and one subdirectory holding
a 3-line file, the persisted child index records 3 lines, yet the root
records total_lines = 0, not 0 + 3: the aggregation loop never adds
subdirectory lines (contradicting the model field description Total lines
of code including subdirectories). -/
theorem c1_total_lines_drops_subdirectory_lines :
    ((_index_directory env0 true [ outStr ] [ repoStr ] [] true treeC1 none {}).1.files.isEmpty = true)
  ∧ ((_index_directory env0 true [ outStr ] [ repoStr ] [] true treeC1 none {}).1.total_lines = 0)
  ∧ (((_index_directory env0 true [ outStr ] [ repoStr ] [] true treeC1 none {}).1.subdirectories.map
        (fun r => r.index_file_path)) = [ [ outStr, subStr, indexJsonStr ] ])
  ∧ ((storeLookup (_index_directory env0 true [ outStr ] [ repoStr ] [] true treeC1 none {}).2.writes
        [ outStr, subStr, indexJsonStr ]).map (fun d => d.total_lines) = some 3)
  ∧ ¬ ((_index_directory env0 true [ outStr ] [ repoStr ] [] true treeC1 none {}).1.total_lines
        = (((_index_directory env0 true [ outStr ] [ repoStr ] [] true treeC1 none {}).1.files.map
            (fun f => f.total_lines)).sum) + 3) := by
  refine ⟨by decide, by decide, by decide, by decide, by decide⟩

/-- C2 (code bug, failing input): the claim says a run whose artifact
writes all succeed completes and returns a RepositoryIndex.  In the model
every write succeeds, yet index_repository ends with the NameError raised
by the undefined name index_dir in the completion banner, with or without
summaries, so no run ever returns a repository index. -/
theorem c2_index_repository_always_raises_nameerror :
    runOutcomeError (index_repository env0 100 [ repoStr ] [ outStr ] true SrcEntryList.nil true).1
      = some RunError.nameErrorIndexDir
  ∧ runOutcomeError (index_repository env0 100 [ repoStr ] [ outStr ] true SrcEntryList.nil false).1
      = some RunError.nameErrorIndexDir := by
  refine ⟨by decide, by decide⟩

/-- C3 (code bug, failing input): the claim says the generator is invoked
at most once per distinct digest within one batch, with one cache entry and
identical texts.  With two byte-identical files a.py and b.py (digest h0)
and a deterministic path-sensitive backend, the generator is invoked twice
for h0, the two files receive different summary texts, and the cache holds
a single entry for h0 (last completion wins). -/
theorem c3_duplicate_digest_double_generation :
    (((_index_directory env0 true [ outStr ] [ repoStr ] [] true treeC3 none {}).2.invocations).count
        (some h0Str) = 2)
  ∧ (((_index_directory env0 true [ outStr ] [ repoStr ] [] true treeC3 none {}).1.files.map
        (fun f => f.summary)) = [ some (sS ++ aPyStr), some (sS ++ bPyStr) ])
  ∧ ¬ (some (sS ++ aPyStr) = some (sS ++ bPyStr))
  ∧ (((_index_directory env0 true [ outStr ] [ repoStr ] [] true treeC3 none {}).2.cache.map Prod.fst)
      = [ some h0Str ]) := by
  refine ⟨by decide, by decide, by decide, by decide⟩

/-- C5 (code bug, failing input): the claim says an unreadable directory
yields an empty DirectoryIndex, contributes zero to its parent, and the run
still completes its statistics pass.  The empty index and the zero
contribution hold (first five conjuncts), but the unreadable directory is
returned without being persisted, so no artifact exists at out/sub/index.json
and the statistics pass aborts with the uncaught FileNotFoundError
(missingArtifact), instead of completing. -/
theorem c5_unreadable_directory_breaks_statistics_pass :
    ((_index_directory env0 true [ outStr ] [ repoStr, subStr ] [ subStr ] false SrcEntryList.nil
        (some [ outStr, indexJsonStr ]) {}).1.files.length = 0)
  ∧ ((_index_directory env0 true [ outStr ] [ repoStr, subStr ] [ subStr ] false SrcEntryList.nil
        (some [ outStr, indexJsonStr ]) {}).1.subdirectories.length = 0)
  ∧ ((_index_directory env0 true [ outStr ] [ repoStr, subStr ] [ subStr ] false SrcEntryList.nil
        (some [ outStr, indexJsonStr ]) {}).1.total_file_count = 0)
  ∧ ((_index_directory env0 true [ outStr ] [ repoStr, subStr ] [ subStr ] false SrcEntryList.nil
        (some [ outStr, indexJsonStr ]) {}).1.total_lines = 0)
  ∧ (((_index_directory env0 true [ outStr ] [ repoStr ] [] true treeC5 none {}).1.subdirectories.map
        (fun r => (r.file_count, r.subdir_count))) = [ (0, 0) ])
  ∧ ((storeLookup (_index_directory env0 true [ outStr ] [ repoStr ] [] true treeC5 none {}).2.writes
        [ outStr, subStr, indexJsonStr ]).isSome = false)
  ∧ (runOutcomeError (index_repository env0 100 [ repoStr ] [ outStr ] true treeC5 true).1
      = some (RunError.missingArtifact [ outStr, subStr, indexJsonStr ])) := by
  refine ⟨by decide, by decide, by decide, by decide, by decide, by decide, by decide⟩

/-- C8 counterexample: the digest is present in the summary cache (mapped
to the empty string), the cached summary is attached by _index_python_file,
and yet the batch pass submits the record to the generator again, because
the files-to-summarize filter tests Python truthiness of the summary, not
cache presence. -/
theorem c8_counterexample_empty_cached_summary :
    (cacheLookup cacheC8 (some srcFileDup.digest)).isSome = true
  ∧ ((_index_python_file true [ aPyStr ] [ aPyStr ] srcFileDup cacheC8).map
      (fun fm => fm.summary)) = some (some emptyStr)
  ∧ ((_index_python_file true [ aPyStr ] [ aPyStr ] srcFileDup cacheC8).map
      (fun fm => ((batchStep env0 fm).2).isSome)) = some true := by
  refine ⟨by decide, by decide, by decide⟩

/-- C8 (amended): if the digest of a readable, parseable file maps to a
NON-EMPTY summary in the cache, _index_python_file attaches exactly that
summary and the batch pass leaves the record untouched and submits no
generator invocation for it; hence re-indexing with such a warm cache
reproduces the cached summary for every unchanged-digest file. -/
theorem c8_cache_hit_short_circuits (env : Env) (fp rp : List String) (f : SrcFile)
    (cache : Cache) (s : String)
    (hread : f.readable = true) (hparse : f.parsed.isSome = true)
    (hhit : cacheLookup cache (some f.digest) = some s)
    (hne : ¬ (s = emptyStr)) :
    ∃ fm, _index_python_file true fp rp f cache = some fm ∧ fm.summary = some s ∧
      batchStep env fm = (fm, none) := by
  obtain ⟨m, hm⟩ := Option.isSome_iff_exists.mp hparse
  refine ⟨{ file_path := fp, relative_path := rp, language := CodeLanguage.python,
            total_lines := f.total_lines, imports := m.walkedImports,
            elements := m.body.filterMap extractTopLevel, summary := some s }, ?_, rfl, ?_⟩
  · simp [_index_python_file, hread, hm, hhit]
  · have ht : pyTruthyStr (some s) = true := by
      simp [pyTruthyStr]
      exact hne
    simp [batchStep, needsSummary, ht]

theorem c8_cache_hit_short_circuits_witness :
    ∃ fm, _index_python_file true [ aPyStr ] [ aPyStr ] srcFileDup cacheW = some fm
      ∧ fm.summary = some sW ∧ batchStep env0 fm = (fm, none) :=
  c8_cache_hit_short_circuits env0 [ aPyStr ] [ aPyStr ] srcFileDup cacheW sW
    (by decide) (by decide) (by decide) (by decide)

theorem dirSummarySubdirLines_sublist (subs : List SubdirectoryReference) :
    List.Sublist (dirSummarySubdirLines subs) ((subs.take 10).filterMap subdirSummaryLine) := by
  unfold dirSummarySubdirLines
  apply List.Sublist.filterMap
  have h : subs.take 5 = (subs.take 10).take 5 := by
    rw [List.take_take]
    norm_num
  rw [h]
  exact List.take_sublist _ _

theorem finishDirectory_summary_cases (env : Env) (dp rel ifp : List String)
    (pip : Option (List String)) (fms : List FileMetadata)
    (refs : List SubdirectoryReference) (st : IState) :
    (((finishDirectory env true dp rel ifp pip fms refs st).1.files = []
        ∧ (finishDirectory env true dp rel ifp pip fms refs st).1.subdirectories = []) →
      (finishDirectory env true dp rel ifp pip fms refs st).1.summary = none)
  ∧ (¬ ((finishDirectory env true dp rel ifp pip fms refs st).1.files = []
        ∧ (finishDirectory env true dp rel ifp pip fms refs st).1.subdirectories = []) →
      (finishDirectory env true dp rel ifp pip fms refs st).1.summary
        = some (_generate_directory_summary env
            { (finishDirectory env true dp rel ifp pip fms refs st).1 with summary := none })) := by
  simp only [finishDirectory]
  split_ifs with h1 h2 h3
  · constructor
    · intro hemp
      exfalso
      have he1 : (_batch_generate_file_summaries env fms st.cache).1 = [] := hemp.1
      have he2 : refs = [] := hemp.2
      rw [he1, he2] at h2
      simp at h2
    · intro _
      rfl
  · constructor
    · intro _
      rfl
    · intro hne
      exfalso
      apply hne
      simp only [Bool.true_and] at h2
      simp only [Bool.or_eq_true, Bool.not_eq_true', not_or] at h2
      exact ⟨List.isEmpty_iff.mp (by simpa using h2.1), List.isEmpty_iff.mp (by simpa using h2.2)⟩
  · constructor
    · intro hemp
      exfalso
      have he1 : fms = [] := hemp.1
      have he2 : refs = [] := hemp.2
      rw [he1, he2] at h3
      simp at h3
    · intro _
      rfl
  · constructor
    · intro _
      rfl
    · intro hne
      exfalso
      apply hne
      simp only [Bool.true_and] at h3
      simp only [Bool.or_eq_true, Bool.not_eq_true', not_or] at h3
      exact ⟨List.isEmpty_iff.mp (by simpa using h3.1), List.isEmpty_iff.mp (by simpa using h3.2)⟩

/-- C6: for every directory indexed with summaries enabled, if it ends up
with no files and no subdirectory references its summary is left none;
otherwise its summary is generated as a function of the record (through
_generate_directory_summary, whose prompt inputs are the relative path,
the two counts, the file-summary block drawn from the first ten files and
the child-summary block drawn from the first five references); the file
block equals the top-10 file lines and the child block is a sublist of the
top-10 child lines, so the summary is generated from a stable, ordered
subset of at most the top-10 file and top-10 child summaries. -/
theorem c6_directory_summary_from_truncated_subset (env : Env) (oroot dp rel : List String)
    (readable : Bool) (entries : SrcEntryList) (pip : Option (List String)) (st : IState) :
    (((_index_directory env true oroot dp rel readable entries pip st).1.files = []
        ∧ (_index_directory env true oroot dp rel readable entries pip st).1.subdirectories = []) →
      (_index_directory env true oroot dp rel readable entries pip st).1.summary = none)
  ∧ (¬ ((_index_directory env true oroot dp rel readable entries pip st).1.files = []
        ∧ (_index_directory env true oroot dp rel readable entries pip st).1.subdirectories = []) →
      (_index_directory env true oroot dp rel readable entries pip st).1.summary
        = some (_generate_directory_summary env
            { (_index_directory env true oroot dp rel readable entries pip st).1 with
                summary := none }))
  ∧ dirSummaryFileLines (_index_directory env true oroot dp rel readable entries pip st).1.files
      = (((_index_directory env true oroot dp rel readable entries pip st).1.files.take 10).filterMap
          fileSummaryLine)
  ∧ List.Sublist
      (dirSummarySubdirLines (_index_directory env true oroot dp rel readable entries pip st).1.subdirectories)
      ((((_index_directory env true oroot dp rel readable entries pip st).1.subdirectories).take 10).filterMap
        subdirSummaryLine) := by
  cases readable with
  | false =>
    refine ⟨?_, ?_, rfl, dirSummarySubdirLines_sublist _⟩
    · intro _
      rfl
    · intro hne
      exact absurd ⟨rfl, rfl⟩ hne
  | true =>
    refine ⟨?_, ?_, rfl, dirSummarySubdirLines_sublist _⟩
    · exact (finishDirectory_summary_cases env dp rel (oroot ++ rel ++ [indexJsonStr]) pip
        (indexFilesPass true dp rel entries.toList st.cache)
        (indexSubdirsOf env true oroot dp rel (oroot ++ rel ++ [indexJsonStr]) entries st).1
        (indexSubdirsOf env true oroot dp rel (oroot ++ rel ++ [indexJsonStr]) entries st).2).1
    · exact (finishDirectory_summary_cases env dp rel (oroot ++ rel ++ [indexJsonStr]) pip
        (indexFilesPass true dp rel entries.toList st.cache)
        (indexSubdirsOf env true oroot dp rel (oroot ++ rel ++ [indexJsonStr]) entries st).1
        (indexSubdirsOf env true oroot dp rel (oroot ++ rel ++ [indexJsonStr]) entries st).2).2

theorem c6_directory_summary_from_truncated_subset_witness :
    (_index_directory env0 true [ outStr ] [ repoStr ] [] true treeC3 none {}).1.summary
      = some (_generate_directory_summary env0
          { (_index_directory env0 true [ outStr ] [ repoStr ] [] true treeC3 none {}).1 with
              summary := none }) :=
  (c6_directory_summary_from_truncated_subset env0 [ outStr ] [ repoStr ] [] true treeC3 none {}).2.1
    (by
      intro h
      have hlen : ((_index_directory env0 true [ outStr ] [ repoStr ] [] true treeC3 none {}).1.files).length = 2 := by
        decide
      rw [h.1] at hlen
      simp at hlen)

theorem _index_python_file_isSome (gs : Bool) (fp rp : List String) (f : SrcFile) (c : Cache) :
    (_index_python_file gs fp rp f c).isSome = f.readable := by
  unfold _index_python_file
  cases hr : f.readable with
  | false => simp
  | true =>
    simp only [Bool.not_true, Bool.false_eq_true, if_false]
    cases f.parsed with
    | none => simp
    | some m =>
      cases gs with
      | false => simp
      | true =>
        cases cacheLookup c (some f.digest) with
        | none => simp
        | some s => simp

theorem indexFilesPass_length (gs : Bool) (dp rel : List String) (l : List SrcEntry) (c : Cache) :
    (indexFilesPass gs dp rel l c).length = eligibleFileCount l := by
  induction l with
  | nil => rfl
  | cons e rest ih =>
    cases e with
    | dir n rd es =>
      simpa [indexFilesPass, List.filterMap_cons, eligibleFileCount, List.filter_cons,
             eligibleSrcFileB, fileEntryMetadata] using ih
    | file n f =>
      by_cases hig : pyIgnoredName n = true
      · simp_all [indexFilesPass, List.filterMap_cons, eligibleFileCount, List.filter_cons,
                  eligibleSrcFileB, fileEntryMetadata]
      · by_cases hpy : pyEndsWith n pyExtStr = true
        · rcases hso : _index_python_file gs (dp ++ [n]) (rel ++ [n]) f c with _ | fm
          · have hr : f.readable = false := by
              have := _index_python_file_isSome gs (dp ++ [n]) (rel ++ [n]) f c
              rw [hso] at this
              simpa using this.symm
            simp_all [indexFilesPass, List.filterMap_cons, eligibleFileCount, List.filter_cons,
                      eligibleSrcFileB, fileEntryMetadata]
          · have hr : f.readable = true := by
              have := _index_python_file_isSome gs (dp ++ [n]) (rel ++ [n]) f c
              rw [hso] at this
              simpa using this.symm
            simp_all [indexFilesPass, List.filterMap_cons, eligibleFileCount, List.filter_cons,
                      eligibleSrcFileB, fileEntryMetadata]
        · simp_all [indexFilesPass, List.filterMap_cons, eligibleFileCount, List.filter_cons,
                    eligibleSrcFileB, fileEntryMetadata]

theorem foldl_add_file_count (refs : List SubdirectoryReference) (i : Nat) :
    refs.foldl (fun acc r => acc + r.file_count) i
      = i + (refs.map (fun r => r.file_count)).sum := by
  induction refs generalizing i with
  | nil => simp
  | cons r rest ih =>
    simp only [List.foldl_cons, ih, List.map_cons, List.sum_cons]
    omega

theorem entriesCountsList_sum (l : SrcEntryList) :
    (entriesCountsList l).sum = entriesTransCount l := by
  refine srcEntryListInd (fun _ => True) (fun l => (entriesCountsList l).sum = entriesTransCount l)
    (fun _ _ => trivial) (fun _ _ _ _ => trivial) rfl ?_ l
  intro e rest _ ihr
  cases e with
  | file n f => simpa [entriesCountsList, entriesTransCount, entryTransCount] using ihr
  | dir n rd es =>
    by_cases hig : pyIgnoredName n = true
    · simp [entriesCountsList, entriesTransCount, entryTransCount, hig, ihr]
    · simp [entriesCountsList, entriesTransCount, entryTransCount, hig, ihr, dirTransCount]

theorem finishDirectory_total_file_count (env : Env) (gs : Bool) (dp rel ifp : List String)
    (pip : Option (List String)) (fms : List FileMetadata) (refs : List SubdirectoryReference)
    (st : IState) :
    (finishDirectory env gs dp rel ifp pip fms refs st).1.total_file_count
      = fms.length + (refs.map (fun r => r.file_count)).sum := by
  simp only [finishDirectory]
  split_ifs <;> exact foldl_add_file_count refs fms.length

theorem finishDirectory_direct_file_count (env : Env) (gs : Bool) (dp rel ifp : List String)
    (pip : Option (List String)) (fms : List FileMetadata) (refs : List SubdirectoryReference)
    (st : IState) :
    (finishDirectory env gs dp rel ifp pip fms refs st).1.direct_file_count = fms.length := by
  simp only [finishDirectory]
  split_ifs <;> rfl

theorem finishDirectory_subdirectories (env : Env) (gs : Bool) (dp rel ifp : List String)
    (pip : Option (List String)) (fms : List FileMetadata) (refs : List SubdirectoryReference)
    (st : IState) :
    (finishDirectory env gs dp rel ifp pip fms refs st).1.subdirectories = refs := by
  simp only [finishDirectory]
  split_ifs <;> rfl

theorem subdirRefs_counts (l : SrcEntryList) :
    ∀ (env : Env) (gs : Bool) (oroot dp rel ifp : List String) (st : IState),
      ((((indexSubdirsOf env gs oroot dp rel ifp l st).1).map (fun r => r.file_count))
          = entriesCountsList l)
      ∧ (∀ ref ∈ (indexSubdirsOf env gs oroot dp rel ifp l st).1,
          ∃ n rd es, SrcEntry.dir n rd es ∈ l.toList ∧ ref.file_count = dirTransCount rd es) := by
  refine srcEntryListInd
    (fun e => ∀ (env : Env) (gs : Bool) (oroot dp rel ifp : List String) (st : IState),
      (((indexEntryAsSubdir env gs oroot dp rel ifp st e).1).map (fun r => r.file_count))
        = entryCountOpt e)
    (fun l => ∀ (env : Env) (gs : Bool) (oroot dp rel ifp : List String) (st : IState),
      ((((indexSubdirsOf env gs oroot dp rel ifp l st).1).map (fun r => r.file_count))
          = entriesCountsList l)
      ∧ (∀ ref ∈ (indexSubdirsOf env gs oroot dp rel ifp l st).1,
          ∃ n rd es, SrcEntry.dir n rd es ∈ l.toList ∧ ref.file_count = dirTransCount rd es))
    ?_ ?_ ?_ ?_ l
  · -- file entries produce no reference
    intro n f env gs oroot dp rel ifp st
    rfl
  · -- directory entries
    intro n rd es ihq env gs oroot dp rel ifp st
    by_cases hig : pyIgnoredName n = true
    · simp [indexEntryAsSubdir, entryCountOpt, hig]
    · cases rd with
      | false =>
        simp [indexEntryAsSubdir, entryCountOpt, hig, dirTransCount, mkSubdirRef, emptyDirIndex]
      | true =>
        have hsub : ∀ ifp2 : List String,
            List.map (fun r => r.file_count)
              (indexSubdirsOf env gs oroot (dp ++ [n]) (rel ++ [n]) ifp2 es st).1
              = entriesCountsList es :=
          fun ifp2 => (ihq env gs oroot (dp ++ [n]) (rel ++ [n]) ifp2 st).1
        simp [indexEntryAsSubdir, entryCountOpt, hig, dirTransCount, mkSubdirRef,
              finishDirectory_total_file_count, indexFilesPass_length, hsub,
              entriesCountsList_sum]
  · -- nil
    intro env gs oroot dp rel ifp st
    constructor
    · rfl
    · intro ref href
      exact absurd href (by simp [indexSubdirsOf])
  · -- cons
    intro e rest ihp ihq env gs oroot dp rel ifp st
    have hp := ihp env gs oroot dp rel ifp st
    rcases ho : (indexEntryAsSubdir env gs oroot dp rel ifp st e).1 with _ | r
    · rw [ho] at hp
      simp only [Option.map_none'] at hp
      have hcons : entriesCountsList (SrcEntryList.cons e rest) = entriesCountsList rest := by
        cases e with
        | file n f => rfl
        | dir n rd es =>
          simp only [entryCountOpt] at hp
          rcases hig : pyIgnoredName n with _ | _
          · rw [hig] at hp
            simp at hp
          · simp [entriesCountsList, hig]
      constructor
      · simp only [indexSubdirsOf, ho]
        rw [hcons]
        exact (ihq env gs oroot dp rel ifp
          (indexEntryAsSubdir env gs oroot dp rel ifp st e).2).1
      · intro ref href
        simp only [indexSubdirsOf, ho] at href
        obtain ⟨n, rd, es, hmem, hcnt⟩ := (ihq env gs oroot dp rel ifp
          (indexEntryAsSubdir env gs oroot dp rel ifp st e).2).2 ref href
        exact ⟨n, rd, es, by simp [SrcEntryList.toList, hmem], hcnt⟩
    · rw [ho] at hp
      simp only [Option.map_some'] at hp
      -- hp : some r.file_count = entryCountOpt e, so e is a non-ignored directory
      cases e with
      | file n f => simp [entryCountOpt] at hp
      | dir n rd es =>
        rcases hig : pyIgnoredName n with _ | _
        · rw [entryCountOpt, hig] at hp
          simp at hp
          constructor
          · simp only [indexSubdirsOf, ho]
            simp only [List.map_cons]
            rw [hp]
            rw [show entriesCountsList (SrcEntryList.cons (SrcEntry.dir n rd es) rest)
                  = dirTransCount rd es :: entriesCountsList rest by
                simp [entriesCountsList, hig]]
            rw [(ihq env gs oroot dp rel ifp
              (indexEntryAsSubdir env gs oroot dp rel ifp st (SrcEntry.dir n rd es)).2).1]
          · intro ref href
            simp only [indexSubdirsOf, ho] at href
            rcases List.mem_cons.mp href with heq | htail
            · subst heq
              exact ⟨n, rd, es, by simp [SrcEntryList.toList], hp⟩
            · obtain ⟨n2, rd2, es2, hmem, hcnt⟩ := (ihq env gs oroot dp rel ifp
                (indexEntryAsSubdir env gs oroot dp rel ifp st (SrcEntry.dir n rd es)).2).2 ref htail
              exact ⟨n2, rd2, es2, by simp [SrcEntryList.toList, hmem], hcnt⟩
        · rw [entryCountOpt, hig] at hp
          simp at hp

theorem _index_directory_total_file_count (env : Env) (gs : Bool) (oroot dp rel : List String)
    (rd : Bool) (es : SrcEntryList) (pip : Option (List String)) (st : IState) :
    (_index_directory env gs oroot dp rel rd es pip st).1.total_file_count
      = dirTransCount rd es := by
  cases rd with
  | false => rfl
  | true =>
    have hsub : ∀ ifp2 : List String,
        List.map (fun r => r.file_count) (indexSubdirsOf env gs oroot dp rel ifp2 es st).1
          = entriesCountsList es :=
      fun ifp2 => (subdirRefs_counts es env gs oroot dp rel ifp2 st).1
    simp [_index_directory, finishDirectory_total_file_count, indexFilesPass_length, hsub,
          entriesCountsList_sum, dirTransCount]

/-- C4: every DirectoryIndex produced by _index_directory satisfies
total_file_count = direct_file_count + sum of the file_count fields of its
SubdirectoryReference records, and each file_count equals the
total_file_count that _index_directory computes for that child subtree
(independently of the generator, paths and incoming state). -/
theorem c4_total_file_count_invariant (env : Env) (gs : Bool) (oroot dp rel : List String)
    (readable : Bool) (entries : SrcEntryList) (pip : Option (List String)) (st : IState) :
    ((_index_directory env gs oroot dp rel readable entries pip st).1.total_file_count
      = (_index_directory env gs oroot dp rel readable entries pip st).1.direct_file_count
        + ((((_index_directory env gs oroot dp rel readable entries pip st).1.subdirectories).map
            (fun r => r.file_count)).sum))
  ∧ (∀ ref ∈ (_index_directory env gs oroot dp rel readable entries pip st).1.subdirectories,
      ∃ n rd es, SrcEntry.dir n rd es ∈ entries.toList
        ∧ ∀ (env2 : Env) (gs2 : Bool) (oroot2 dp2 rel2 : List String)
            (pip2 : Option (List String)) (st2 : IState),
            ref.file_count
              = (_index_directory env2 gs2 oroot2 dp2 rel2 rd es pip2 st2).1.total_file_count) := by
  cases readable with
  | false =>
    constructor
    · rfl
    · intro ref href
      exact absurd href (by simp [_index_directory, emptyDirIndex])
  | true =>
    constructor
    · simp [_index_directory, finishDirectory_total_file_count,
            finishDirectory_direct_file_count, finishDirectory_subdirectories,
            foldl_add_file_count]
    · intro ref href
      have hsubs : (_index_directory env gs oroot dp rel true entries pip st).1.subdirectories
          = (indexSubdirsOf env gs oroot dp rel (oroot ++ rel ++ [indexJsonStr]) entries st).1 :=
        finishDirectory_subdirectories env gs dp rel (oroot ++ rel ++ [indexJsonStr]) pip
          (indexFilesPass gs dp rel entries.toList st.cache)
          (indexSubdirsOf env gs oroot dp rel (oroot ++ rel ++ [indexJsonStr]) entries st).1
          (indexSubdirsOf env gs oroot dp rel (oroot ++ rel ++ [indexJsonStr]) entries st).2
      rw [hsubs] at href
      obtain ⟨n, rd, es, hmem, hcnt⟩ := (subdirRefs_counts entries env gs oroot dp rel
        (oroot ++ rel ++ [indexJsonStr]) st).2 ref href
      refine ⟨n, rd, es, hmem, ?_⟩
      intro env2 gs2 oroot2 dp2 rel2 pip2 st2
      rw [hcnt, _index_directory_total_file_count]

theorem c4_total_file_count_invariant_witness :
    ((_index_directory env0 true [ outStr ] [ repoStr ] [] true treeC1 none {}).1.total_file_count
      = (_index_directory env0 true [ outStr ] [ repoStr ] [] true treeC1 none {}).1.direct_file_count
        + ((((_index_directory env0 true [ outStr ] [ repoStr ] [] true treeC1 none {}).1.subdirectories).map
            (fun r => r.file_count)).sum))
  ∧ (∀ ref ∈ (_index_directory env0 true [ outStr ] [ repoStr ] [] true treeC1 none {}).1.subdirectories,
      ∃ n rd es, SrcEntry.dir n rd es ∈ treeC1.toList
        ∧ ∀ (env2 : Env) (gs2 : Bool) (oroot2 dp2 rel2 : List String)
            (pip2 : Option (List String)) (st2 : IState),
            ref.file_count
              = (_index_directory env2 gs2 oroot2 dp2 rel2 rd es pip2 st2).1.total_file_count) :=
  c4_total_file_count_invariant env0 true [ outStr ] [ repoStr ] [] true treeC1 none {}

theorem finishDirectory_writes (env : Env) (gs : Bool) (dp rel ifp : List String)
    (pip : Option (List String)) (fms : List FileMetadata) (refs : List SubdirectoryReference)
    (st : IState) :
    (finishDirectory env gs dp rel ifp pip fms refs st).2.writes
      = st.writes ++ [(ifp, (finishDirectory env gs dp rel ifp pip fms refs st).1)] := by
  simp only [finishDirectory]

theorem indexEntryAsSubdir_file (env : Env) (gs : Bool) (oroot dp rel ifp : List String)
    (st : IState) (n : String) (f : SrcFile) :
    indexEntryAsSubdir env gs oroot dp rel ifp st (SrcEntry.file n f) = (none, st) := rfl

theorem indexEntryAsSubdir_ignored (env : Env) (gs : Bool) (oroot dp rel ifp : List String)
    (st : IState) (n : String) (rd : Bool) (es : SrcEntryList)
    (hig : pyIgnoredName n = true) :
    indexEntryAsSubdir env gs oroot dp rel ifp st (SrcEntry.dir n rd es) = (none, st) := by
  simp [indexEntryAsSubdir, hig]

theorem indexEntryAsSubdir_unreadable (env : Env) (gs : Bool) (oroot dp rel ifp : List String)
    (st : IState) (n : String) (es : SrcEntryList)
    (hig : ¬ pyIgnoredName n = true) :
    indexEntryAsSubdir env gs oroot dp rel ifp st (SrcEntry.dir n false es)
      = (some (mkSubdirRef n (dp ++ [n])
          (emptyDirIndex (dp ++ [n]) (rel ++ [n])
            (oroot ++ (rel ++ [n]) ++ [indexJsonStr]) (some ifp))), st) := by
  simp [indexEntryAsSubdir, hig]

theorem indexEntryAsSubdir_readable (env : Env) (gs : Bool) (oroot dp rel ifp : List String)
    (st : IState) (n : String) (es : SrcEntryList)
    (hig : ¬ pyIgnoredName n = true) :
    indexEntryAsSubdir env gs oroot dp rel ifp st (SrcEntry.dir n true es)
      = (some (mkSubdirRef n (dp ++ [n])
          (finishDirectory env gs (dp ++ [n]) (rel ++ [n])
            (oroot ++ (rel ++ [n]) ++ [indexJsonStr]) (some ifp)
            (indexFilesPass gs (dp ++ [n]) (rel ++ [n]) es.toList st.cache)
            (indexSubdirsOf env gs oroot (dp ++ [n]) (rel ++ [n])
              (oroot ++ (rel ++ [n]) ++ [indexJsonStr]) es st).1
            (indexSubdirsOf env gs oroot (dp ++ [n]) (rel ++ [n])
              (oroot ++ (rel ++ [n]) ++ [indexJsonStr]) es st).2).1),
         (finishDirectory env gs (dp ++ [n]) (rel ++ [n])
            (oroot ++ (rel ++ [n]) ++ [indexJsonStr]) (some ifp)
            (indexFilesPass gs (dp ++ [n]) (rel ++ [n]) es.toList st.cache)
            (indexSubdirsOf env gs oroot (dp ++ [n]) (rel ++ [n])
              (oroot ++ (rel ++ [n]) ++ [indexJsonStr]) es st).1
            (indexSubdirsOf env gs oroot (dp ++ [n]) (rel ++ [n])
              (oroot ++ (rel ++ [n]) ++ [indexJsonStr]) es st).2).2) := by
  simp [indexEntryAsSubdir, hig]

theorem indexSubdirsOf_cons_snd (env : Env) (gs : Bool) (oroot dp rel ifp : List String)
    (e : SrcEntry) (rest : SrcEntryList) (st : IState) :
    (indexSubdirsOf env gs oroot dp rel ifp (SrcEntryList.cons e rest) st).2
      = (indexSubdirsOf env gs oroot dp rel ifp rest
          (indexEntryAsSubdir env gs oroot dp rel ifp st e).2).2 := by
  simp only [indexSubdirsOf]
  rcases (indexEntryAsSubdir env gs oroot dp rel ifp st e).1 with _ | r <;> rfl

theorem indexSubdirsOf_cons_fst_none (env : Env) (gs : Bool) (oroot dp rel ifp : List String)
    (e : SrcEntry) (rest : SrcEntryList) (st : IState)
    (h : (indexEntryAsSubdir env gs oroot dp rel ifp st e).1 = none) :
    (indexSubdirsOf env gs oroot dp rel ifp (SrcEntryList.cons e rest) st).1
      = (indexSubdirsOf env gs oroot dp rel ifp rest
          (indexEntryAsSubdir env gs oroot dp rel ifp st e).2).1 := by
  simp only [indexSubdirsOf, h]

theorem indexSubdirsOf_cons_fst_some (env : Env) (gs : Bool) (oroot dp rel ifp : List String)
    (e : SrcEntry) (rest : SrcEntryList) (st : IState) (r : SubdirectoryReference)
    (h : (indexEntryAsSubdir env gs oroot dp rel ifp st e).1 = some r) :
    (indexSubdirsOf env gs oroot dp rel ifp (SrcEntryList.cons e rest) st).1
      = r :: (indexSubdirsOf env gs oroot dp rel ifp rest
          (indexEntryAsSubdir env gs oroot dp rel ifp st e).2).1 := by
  simp only [indexSubdirsOf, h]

theorem writes_mono (l : SrcEntryList) :
    ∀ (env : Env) (gs : Bool) (oroot dp rel ifp : List String) (st : IState),
      ∃ w, (indexSubdirsOf env gs oroot dp rel ifp l st).2.writes = st.writes ++ w := by
  refine srcEntryListInd
    (fun e => ∀ (env : Env) (gs : Bool) (oroot dp rel ifp : List String) (st : IState),
      ∃ w, (indexEntryAsSubdir env gs oroot dp rel ifp st e).2.writes = st.writes ++ w)
    (fun l => ∀ (env : Env) (gs : Bool) (oroot dp rel ifp : List String) (st : IState),
      ∃ w, (indexSubdirsOf env gs oroot dp rel ifp l st).2.writes = st.writes ++ w)
    ?_ ?_ ?_ ?_ l
  · intro n f env gs oroot dp rel ifp st
    exact ⟨[], by simp [indexEntryAsSubdir_file]⟩
  · intro n rd es ihq env gs oroot dp rel ifp st
    by_cases hig : pyIgnoredName n = true
    · exact ⟨[], by simp [indexEntryAsSubdir_ignored env gs oroot dp rel ifp st n rd es hig]⟩
    · cases rd with
      | false =>
        exact ⟨[], by simp [indexEntryAsSubdir_unreadable env gs oroot dp rel ifp st n es hig]⟩
      | true =>
        obtain ⟨w, hw⟩ := ihq env gs oroot (dp ++ [n]) (rel ++ [n])
          (oroot ++ (rel ++ [n]) ++ [indexJsonStr]) st
        rw [indexEntryAsSubdir_readable env gs oroot dp rel ifp st n es hig]
        rw [finishDirectory_writes, hw, List.append_assoc]
        exact ⟨_, rfl⟩
  · intro env gs oroot dp rel ifp st
    exact ⟨[], by simp [indexSubdirsOf]⟩
  · intro e rest ihp ihq env gs oroot dp rel ifp st
    obtain ⟨w1, hw1⟩ := ihp env gs oroot dp rel ifp st
    obtain ⟨w2, hw2⟩ := ihq env gs oroot dp rel ifp (indexEntryAsSubdir env gs oroot dp rel ifp st e).2
    rw [indexSubdirsOf_cons_snd, hw2, hw1, List.append_assoc]
    exact ⟨_, rfl⟩

theorem finishDirectory_index_file_path (env : Env) (gs : Bool) (dp rel ifp : List String)
    (pip : Option (List String)) (fms : List FileMetadata) (refs : List SubdirectoryReference)
    (st : IState) :
    (finishDirectory env gs dp rel ifp pip fms refs st).1.index_file_path = ifp := by
  simp only [finishDirectory]
  split_ifs <;> rfl

theorem writes_paths (l : SrcEntryList) :
    ∀ (env : Env) (gs : Bool) (oroot dp rel ifp : List String) (st : IState),
      ((indexSubdirsOf env gs oroot dp rel ifp l st).2.writes).map Prod.fst
        = (st.writes.map Prod.fst)
          ++ (entriesSubPaths rel l).map (fun p => oroot ++ p ++ [indexJsonStr]) := by
  refine srcEntryListInd
    (fun e => ∀ (env : Env) (gs : Bool) (oroot dp rel ifp : List String) (st : IState),
      ((indexEntryAsSubdir env gs oroot dp rel ifp st e).2.writes).map Prod.fst
        = (st.writes.map Prod.fst)
          ++ (entrySubPaths rel e).map (fun p => oroot ++ p ++ [indexJsonStr]))
    (fun l => ∀ (env : Env) (gs : Bool) (oroot dp rel ifp : List String) (st : IState),
      ((indexSubdirsOf env gs oroot dp rel ifp l st).2.writes).map Prod.fst
        = (st.writes.map Prod.fst)
          ++ (entriesSubPaths rel l).map (fun p => oroot ++ p ++ [indexJsonStr]))
    ?_ ?_ ?_ ?_ l
  · intro n f env gs oroot dp rel ifp st
    simp [indexEntryAsSubdir_file, entrySubPaths]
  · intro n rd es ihq env gs oroot dp rel ifp st
    by_cases hig : pyIgnoredName n = true
    · simp [indexEntryAsSubdir_ignored env gs oroot dp rel ifp st n rd es hig,
            entrySubPaths, hig]
    · cases rd with
      | false =>
        simp [indexEntryAsSubdir_unreadable env gs oroot dp rel ifp st n es hig,
              entrySubPaths, hig]
      | true =>
        rw [indexEntryAsSubdir_readable env gs oroot dp rel ifp st n es hig]
        have hq := ihq env gs oroot (dp ++ [n]) (rel ++ [n])
          (oroot ++ (rel ++ [n]) ++ [indexJsonStr]) st
        simp only [finishDirectory_writes, List.map_append, hq]
        simp [entrySubPaths, hig]
  · intro env gs oroot dp rel ifp st
    simp [indexSubdirsOf, entriesSubPaths]
  · intro e rest ihp ihq env gs oroot dp rel ifp st
    rw [indexSubdirsOf_cons_snd]
    rw [ihq env gs oroot dp rel ifp (indexEntryAsSubdir env gs oroot dp rel ifp st e).2]
    rw [ihp env gs oroot dp rel ifp st]
    simp [entriesSubPaths, List.append_assoc]

theorem subPaths_shape (l : SrcEntryList) :
    ∀ rel : List String, ∀ p ∈ entriesSubPaths rel l,
      rel.length < p.length ∧ p.take rel.length = rel := by
  refine srcEntryListInd
    (fun e => ∀ rel : List String, ∀ p ∈ entrySubPaths rel e,
      rel.length < p.length ∧ p.take rel.length = rel)
    (fun l => ∀ rel : List String, ∀ p ∈ entriesSubPaths rel l,
      rel.length < p.length ∧ p.take rel.length = rel)
    ?_ ?_ ?_ ?_ l
  · intro n f rel p hp
    simp [entrySubPaths] at hp
  · intro n rd es ihq rel p hp
    by_cases hig : pyIgnoredName n = true
    · simp [entrySubPaths, hig] at hp
    · cases rd with
      | false => simp [entrySubPaths, hig] at hp
      | true =>
        rw [show entrySubPaths rel (SrcEntry.dir n true es)
              = entriesSubPaths (rel ++ [n]) es ++ [rel ++ [n]] by simp [entrySubPaths, hig]] at hp
        rcases List.mem_append.mp hp with hin | hsing
        · obtain ⟨hlt, htake⟩ := ihq (rel ++ [n]) p hin
          simp only [List.length_append, List.length_cons, List.length_nil] at hlt
          constructor
          · omega
          · have h1 : p.take rel.length = (p.take (rel.length + 1)).take rel.length := by
              rw [List.take_take]
              congr 1
              omega
            rw [h1]
            rw [show rel.length + 1 = (rel ++ [n]).length by simp, htake]
            have := List.take_left rel [n]
            simpa using this
        · have hps : p = rel ++ [n] := by simpa using hsing
          subst hps
          constructor
          · simp
          · have := List.take_left rel [n]
            simpa using this
  · intro rel p hp
    simp [entriesSubPaths] at hp
  · intro e rest ihp ihq rel p hp
    rw [show entriesSubPaths rel (SrcEntryList.cons e rest)
          = entrySubPaths rel e ++ entriesSubPaths rel rest from rfl] at hp
    rcases List.mem_append.mp hp with h1 | h2
    · exact ihp rel p h1
    · exact ihq rel p h2

theorem entrySubPaths_get (e : SrcEntry) (rel : List String) (p : List String)
    (hp : p ∈ entrySubPaths rel e) :
    p.get? rel.length = some (entryName e) := by
  cases e with
  | file n f => simp [entrySubPaths] at hp
  | dir n rd es =>
    by_cases hig : pyIgnoredName n = true
    · simp [entrySubPaths, hig] at hp
    · cases rd with
      | false => simp [entrySubPaths, hig] at hp
      | true =>
        rw [show entrySubPaths rel (SrcEntry.dir n true es)
              = entriesSubPaths (rel ++ [n]) es ++ [rel ++ [n]] by simp [entrySubPaths, hig]] at hp
        rcases List.mem_append.mp hp with hin | hsing
        · obtain ⟨hlt, htake⟩ := subPaths_shape es (rel ++ [n]) p hin
          have hlt2 : rel.length < (rel ++ [n]).length := by simp
          have h1 : p.get? rel.length = ((p.take (rel ++ [n]).length).get? rel.length) := by
            rw [List.get?_take (by simpa using Nat.lt_of_lt_of_le hlt2 (le_of_eq rfl))]
          rw [h1, htake]
          rw [show (rel ++ [n]).get? rel.length = some n from by
            simpa using List.get?_concat_length rel n]
          rfl
        · have hps : p = rel ++ [n] := by simpa using hsing
          subst hps
          rw [show (rel ++ [n]).get? rel.length = some n from by
            simpa using List.get?_concat_length rel n]
          rfl

theorem entriesSubPaths_get (l : SrcEntryList) :
    ∀ rel p, p ∈ entriesSubPaths rel l →
      ∃ e, e ∈ l.toList ∧ p.get? rel.length = some (entryName e) := by
  refine srcEntryListInd (fun _ => True)
    (fun l => ∀ rel p, p ∈ entriesSubPaths rel l →
      ∃ e, e ∈ l.toList ∧ p.get? rel.length = some (entryName e))
    (fun _ _ => trivial) (fun _ _ _ _ => trivial) ?_ ?_ l
  · intro rel p hp
    simp [entriesSubPaths] at hp
  · intro e rest _ ihq rel p hp
    rcases List.mem_append.mp hp with h1 | h2
    · exact ⟨e, by simp [SrcEntryList.toList], entrySubPaths_get e rel p h1⟩
    · obtain ⟨e2, hmem, hget⟩ := ihq rel p h2
      exact ⟨e2, by simp [SrcEntryList.toList, hmem], hget⟩

theorem namesNodup_eq (l : SrcEntryList) :
    namesNodup l = true ↔ (l.toList.map entryName).Nodup := by
  simp [namesNodup]

theorem subPaths_nodup (l : SrcEntryList) :
    ∀ rel : List String, namesNodup l = true → entriesWfAux l = true →
      (entriesSubPaths rel l).Nodup := by
  refine srcEntryListInd
    (fun e => ∀ rel : List String, entryWf e = true → (entrySubPaths rel e).Nodup)
    (fun l => ∀ rel : List String, namesNodup l = true → entriesWfAux l = true →
      (entriesSubPaths rel l).Nodup)
    ?_ ?_ ?_ ?_ l
  · intro n f rel _
    simp [entrySubPaths]
  · intro n rd es ihq rel hwf
    by_cases hig : pyIgnoredName n = true
    · simp [entrySubPaths, hig]
    · cases rd with
      | false => simp [entrySubPaths, hig]
      | true =>
        rw [show entrySubPaths rel (SrcEntry.dir n true es)
              = entriesSubPaths (rel ++ [n]) es ++ [rel ++ [n]] by simp [entrySubPaths, hig]]
        have hwf2 := hwf
        rw [show entryWf (SrcEntry.dir n true es) = (namesNodup es && entriesWfAux es) from rfl,
            Bool.and_eq_true] at hwf2
        apply List.Nodup.append
        · exact ihq (rel ++ [n]) hwf2.1 hwf2.2
        · exact List.nodup_singleton _
        · intro p hp hq
          obtain ⟨hlt, _⟩ := subPaths_shape es (rel ++ [n]) p hp
          have hq2 : p = rel ++ [n] := by simpa using hq
          rw [hq2] at hlt
          simp at hlt
  · intro rel _ _
    simp [entriesSubPaths]
  · intro e rest ihp ihq rel hnn hwfa
    have hwfa2 := hwfa
    rw [show entriesWfAux (SrcEntryList.cons e rest) = (entryWf e && entriesWfAux rest) from rfl,
        Bool.and_eq_true] at hwfa2
    have hnn2 : (entryName e ∉ rest.toList.map entryName)
        ∧ (rest.toList.map entryName).Nodup := by
      have := (namesNodup_eq (SrcEntryList.cons e rest)).mp hnn
      rw [show (SrcEntryList.cons e rest).toList = e :: rest.toList from rfl] at this
      simpa using this
    have hnnrest : namesNodup rest = true := (namesNodup_eq rest).mpr hnn2.2
    rw [show entriesSubPaths rel (SrcEntryList.cons e rest)
          = entrySubPaths rel e ++ entriesSubPaths rel rest from rfl]
    apply List.Nodup.append
    · exact ihp rel hwfa2.1
    · exact ihq rel hnnrest hwfa2.2
    · intro p hp hq
      have h1 := entrySubPaths_get e rel p hp
      obtain ⟨e2, hmem2, h2⟩ := entriesSubPaths_get rest rel p hq
      rw [h1] at h2
      have : entryName e = entryName e2 := by
        exact Option.some_injective _ h2
      apply hnn2.1
      rw [this]
      exact List.mem_map_of_mem entryName hmem2

theorem storeLookup_self (W : List (List String × DirectoryIndex))
    (hnd : (W.map Prod.fst).Nodup) :
    ∀ pr ∈ W, storeLookup W pr.1 = some pr.2 := by
  induction W with
  | nil => intro pr hpr; simp at hpr
  | cons w rest ih =>
    rw [List.map_cons] at hnd
    have hhead := (List.nodup_cons.mp hnd).1
    have htailnd := (List.nodup_cons.mp hnd).2
    intro pr hpr
    rcases List.mem_cons.mp hpr with heq | htail
    · subst heq
      simp [storeLookup, List.find?_cons]
    · have hne : ¬ (w.1 == pr.1) = true := by
        intro hbeq
        have heq : w.1 = pr.1 := by
          exact eq_of_beq hbeq
        have hmm : pr.1 ∈ rest.map Prod.fst := List.mem_map_of_mem Prod.fst htail
        rw [← heq] at hmm
        exact hhead hmm
      have ihx := ih htailnd pr htail
      simp only [storeLookup, List.find?_cons] at ihx ⊢
      rw [Bool.not_eq_true] at hne
      rw [hne]
      exact ihx

theorem RefsOk_mono (w : List (List String × DirectoryIndex)) :
    ∀ f g : Nat, f ≤ g → ∀ refs, RefsOk w f refs → RefsOk w g refs := by
  intro f
  induction f with
  | zero =>
    intro g _ refs h
    rw [show RefsOk w 0 refs = (refs = []) from rfl] at h
    subst h
    cases g with
    | zero => rfl
    | succ g2 =>
      intro ref href
      simp at href
  | succ f2 ih =>
    intro g hg refs h
    cases g with
    | zero => omega
    | succ g2 =>
      intro ref href
      obtain ⟨d, hl, hrec⟩ := h ref href
      exact ⟨d, hl, ih g2 (by omega) d.subdirectories hrec⟩

theorem traverseStats_ok (w : List (List String × DirectoryIndex)) :
    ∀ f : Nat, ∀ d : DirectoryIndex, ∀ acc : RepositoryIndex,
      RefsOk w f d.subdirectories →
      ∃ acc2, traverseStats w (f + 1) acc d = Except.ok acc2 := by
  intro f
  induction f with
  | zero =>
    intro d acc h
    rw [show RefsOk w 0 d.subdirectories = (d.subdirectories = []) from rfl] at h
    refine ⟨statAddDir acc d, ?_⟩
    rw [show traverseStats w 1 acc d
          = d.subdirectories.foldlM
              (fun a ref =>
                match storeLookup w ref.index_file_path with
                | none => Except.error (RunError.missingArtifact ref.index_file_path)
                | some sub => traverseStats w 0 a sub)
              (statAddDir acc d) from rfl]
    rw [h]
    rfl
  | succ f2 ih =>
    intro d acc h
    have hfold : ∀ (refs : List SubdirectoryReference),
        (∀ ref ∈ refs, ∃ d2, storeLookup w ref.index_file_path = some d2
          ∧ RefsOk w f2 d2.subdirectories) →
        ∀ acc0 : RepositoryIndex,
        ∃ acc2, refs.foldlM
            (fun a ref =>
              match storeLookup w ref.index_file_path with
              | none => Except.error (RunError.missingArtifact ref.index_file_path)
              | some sub => traverseStats w (f2 + 1) a sub)
            acc0 = Except.ok acc2 := by
      intro refs
      induction refs with
      | nil =>
        intro _ acc0
        exact ⟨acc0, rfl⟩
      | cons r rest ihr =>
        intro hall acc0
        obtain ⟨d2, hl, hrec⟩ := hall r (List.mem_cons_self r rest)
        obtain ⟨acc1, hacc1⟩ := ih d2 acc0 hrec
        obtain ⟨acc2, hacc2⟩ := ihr (fun ref href => hall ref (List.mem_cons_of_mem r href)) acc1
        refine ⟨acc2, ?_⟩
        rw [List.foldlM_cons]
        rw [hl]
        simp only [hacc1]
        simpa using hacc2
    obtain ⟨acc2, hacc2⟩ := hfold d.subdirectories h (statAddDir acc d)
    refine ⟨acc2, ?_⟩
    rw [show traverseStats w (f2 + 1 + 1) acc d
          = d.subdirectories.foldlM
              (fun a ref =>
                match storeLookup w ref.index_file_path with
                | none => Except.error (RunError.missingArtifact ref.index_file_path)
                | some sub => traverseStats w (f2 + 1) a sub)
              (statAddDir acc d) from rfl]
    exact hacc2

theorem walk_refsOk (l : SrcEntryList) :
    ∀ (env : Env) (gs : Bool) (oroot dp rel ifp : List String) (st : IState)
      (W : List (List String × DirectoryIndex)),
      (∀ pr ∈ (indexSubdirsOf env gs oroot dp rel ifp l st).2.writes,
        storeLookup W pr.1 = some pr.2) →
      entriesAllReadable l = true →
      RefsOk W (entriesDepth l + 1) ((indexSubdirsOf env gs oroot dp rel ifp l st).1) := by
  refine srcEntryListInd
    (fun e => ∀ (env : Env) (gs : Bool) (oroot dp rel ifp : List String) (st : IState)
      (W : List (List String × DirectoryIndex)),
      (∀ pr ∈ (indexEntryAsSubdir env gs oroot dp rel ifp st e).2.writes,
        storeLookup W pr.1 = some pr.2) →
      entryAllReadable e = true →
      ∀ r, (indexEntryAsSubdir env gs oroot dp rel ifp st e).1 = some r →
        ∃ d2, storeLookup W r.index_file_path = some d2
          ∧ RefsOk W (entryDepth e) d2.subdirectories)
    (fun l => ∀ (env : Env) (gs : Bool) (oroot dp rel ifp : List String) (st : IState)
      (W : List (List String × DirectoryIndex)),
      (∀ pr ∈ (indexSubdirsOf env gs oroot dp rel ifp l st).2.writes,
        storeLookup W pr.1 = some pr.2) →
      entriesAllReadable l = true →
      RefsOk W (entriesDepth l + 1) ((indexSubdirsOf env gs oroot dp rel ifp l st).1))
    ?_ ?_ ?_ ?_ l
  · -- file entries produce no reference
    intro n f env gs oroot dp rel ifp st W _ _ r hr
    rw [indexEntryAsSubdir_file] at hr
    exact absurd hr (by simp)
  · -- directory entries
    intro n rd es ihq env gs oroot dp rel ifp st W hW hread r hr
    by_cases hig : pyIgnoredName n = true
    · rw [indexEntryAsSubdir_ignored env gs oroot dp rel ifp st n rd es hig] at hr
      exact absurd hr (by simp)
    · cases rd with
      | false =>
        exfalso
        rw [show entryAllReadable (SrcEntry.dir n false es)
              = (pyIgnoredName n || (false && entriesAllReadable es)) from rfl] at hread
        simp only [Bool.false_and, Bool.or_false] at hread
        exact hig hread
      | true =>
        rw [indexEntryAsSubdir_readable env gs oroot dp rel ifp st n es hig] at hr hW
        have hrr : r = mkSubdirRef n (dp ++ [n])
            (finishDirectory env gs (dp ++ [n]) (rel ++ [n])
              (oroot ++ (rel ++ [n]) ++ [indexJsonStr]) (some ifp)
              (indexFilesPass gs (dp ++ [n]) (rel ++ [n]) es.toList st.cache)
              (indexSubdirsOf env gs oroot (dp ++ [n]) (rel ++ [n])
                (oroot ++ (rel ++ [n]) ++ [indexJsonStr]) es st).1
              (indexSubdirsOf env gs oroot (dp ++ [n]) (rel ++ [n])
                (oroot ++ (rel ++ [n]) ++ [indexJsonStr]) es st).2).1 := by
          simpa using hr.symm
        rw [finishDirectory_writes] at hW
        have hmem : ((oroot ++ (rel ++ [n]) ++ [indexJsonStr]),
            (finishDirectory env gs (dp ++ [n]) (rel ++ [n])
              (oroot ++ (rel ++ [n]) ++ [indexJsonStr]) (some ifp)
              (indexFilesPass gs (dp ++ [n]) (rel ++ [n]) es.toList st.cache)
              (indexSubdirsOf env gs oroot (dp ++ [n]) (rel ++ [n])
                (oroot ++ (rel ++ [n]) ++ [indexJsonStr]) es st).1
              (indexSubdirsOf env gs oroot (dp ++ [n]) (rel ++ [n])
                (oroot ++ (rel ++ [n]) ++ [indexJsonStr]) es st).2).1)
            ∈ (indexSubdirsOf env gs oroot (dp ++ [n]) (rel ++ [n])
                (oroot ++ (rel ++ [n]) ++ [indexJsonStr]) es st).2.writes
              ++ [((oroot ++ (rel ++ [n]) ++ [indexJsonStr]),
                (finishDirectory env gs (dp ++ [n]) (rel ++ [n])
                  (oroot ++ (rel ++ [n]) ++ [indexJsonStr]) (some ifp)
                  (indexFilesPass gs (dp ++ [n]) (rel ++ [n]) es.toList st.cache)
                  (indexSubdirsOf env gs oroot (dp ++ [n]) (rel ++ [n])
                    (oroot ++ (rel ++ [n]) ++ [indexJsonStr]) es st).1
                  (indexSubdirsOf env gs oroot (dp ++ [n]) (rel ++ [n])
                    (oroot ++ (rel ++ [n]) ++ [indexJsonStr]) es st).2).1)] := by
          exact List.mem_append_right _ (List.mem_singleton_self _)
        have hlook := hW _ hmem
        have hreades : entriesAllReadable es = true := by
          rw [show entryAllReadable (SrcEntry.dir n true es)
                = (pyIgnoredName n || (true && entriesAllReadable es)) from rfl] at hread
          simp only [Bool.true_and, Bool.or_eq_true] at hread
          rcases hread with h | h
          · exact absurd h hig
          · exact h
        have hWes : ∀ pr ∈ (indexSubdirsOf env gs oroot (dp ++ [n]) (rel ++ [n])
            (oroot ++ (rel ++ [n]) ++ [indexJsonStr]) es st).2.writes,
            storeLookup W pr.1 = some pr.2 := by
          intro pr hpr
          exact hW pr (List.mem_append_left _ hpr)
        have hrec := ihq env gs oroot (dp ++ [n]) (rel ++ [n])
          (oroot ++ (rel ++ [n]) ++ [indexJsonStr]) st W hWes hreades
        refine ⟨(finishDirectory env gs (dp ++ [n]) (rel ++ [n])
            (oroot ++ (rel ++ [n]) ++ [indexJsonStr]) (some ifp)
            (indexFilesPass gs (dp ++ [n]) (rel ++ [n]) es.toList st.cache)
            (indexSubdirsOf env gs oroot (dp ++ [n]) (rel ++ [n])
              (oroot ++ (rel ++ [n]) ++ [indexJsonStr]) es st).1
            (indexSubdirsOf env gs oroot (dp ++ [n]) (rel ++ [n])
              (oroot ++ (rel ++ [n]) ++ [indexJsonStr]) es st).2).1, ?_, ?_⟩
        · rw [hrr]
          rw [show (mkSubdirRef n (dp ++ [n]) _).index_file_path
                = (finishDirectory env gs (dp ++ [n]) (rel ++ [n])
                    (oroot ++ (rel ++ [n]) ++ [indexJsonStr]) (some ifp)
                    (indexFilesPass gs (dp ++ [n]) (rel ++ [n]) es.toList st.cache)
                    (indexSubdirsOf env gs oroot (dp ++ [n]) (rel ++ [n])
                      (oroot ++ (rel ++ [n]) ++ [indexJsonStr]) es st).1
                    (indexSubdirsOf env gs oroot (dp ++ [n]) (rel ++ [n])
                      (oroot ++ (rel ++ [n]) ++ [indexJsonStr]) es st).2).1.index_file_path
              from rfl]
          rw [finishDirectory_index_file_path]
          exact hlook
        · rw [show entryDepth (SrcEntry.dir n true es)
                = (if pyIgnoredName n then 0 else entriesDepth es + 1) from rfl]
          rw [if_neg hig]
          rw [finishDirectory_subdirectories]
          exact hrec
  · -- nil
    intro env gs oroot dp rel ifp st W _ _
    intro ref href
    exact absurd href (by simp [indexSubdirsOf])
  · -- cons
    intro e rest ihp ihq env gs oroot dp rel ifp st W hW hread
    rw [indexSubdirsOf_cons_snd] at hW
    have hreadpair : entryAllReadable e = true ∧ entriesAllReadable rest = true := by
      rw [show entriesAllReadable (SrcEntryList.cons e rest)
            = (entryAllReadable e && entriesAllReadable rest) from rfl,
          Bool.and_eq_true] at hread
      exact hread
    have hq := ihq env gs oroot dp rel ifp
      (indexEntryAsSubdir env gs oroot dp rel ifp st e).2 W hW hreadpair.2
    have hdmax1 : entryDepth e ≤ entriesDepth (SrcEntryList.cons e rest) := by
      rw [show entriesDepth (SrcEntryList.cons e rest)
            = max (entryDepth e) (entriesDepth rest) from rfl]
      exact Nat.le_max_left _ _
    have hdmax2 : entriesDepth rest ≤ entriesDepth (SrcEntryList.cons e rest) := by
      rw [show entriesDepth (SrcEntryList.cons e rest)
            = max (entryDepth e) (entriesDepth rest) from rfl]
      exact Nat.le_max_right _ _
    intro ref href
    rcases ho : (indexEntryAsSubdir env gs oroot dp rel ifp st e).1 with _ | r
    · rw [indexSubdirsOf_cons_fst_none env gs oroot dp rel ifp e rest st ho] at href
      obtain ⟨d2, hl, hrec⟩ := hq ref href
      exact ⟨d2, hl, RefsOk_mono W (entriesDepth rest) _ hdmax2 d2.subdirectories hrec⟩
    · rw [indexSubdirsOf_cons_fst_some env gs oroot dp rel ifp e rest st r ho] at href
      rcases List.mem_cons.mp href with heq | htail
      · subst heq
        obtain ⟨w2, hw2⟩ := writes_mono rest env gs oroot dp rel ifp
          (indexEntryAsSubdir env gs oroot dp rel ifp st e).2
        have hWe : ∀ pr ∈ (indexEntryAsSubdir env gs oroot dp rel ifp st e).2.writes,
            storeLookup W pr.1 = some pr.2 := by
          intro pr hpr
          apply hW
          rw [hw2]
          exact List.mem_append_left _ hpr
        obtain ⟨d2, hl, hrec⟩ := ihp env gs oroot dp rel ifp st W hWe hreadpair.1 ref ho
        exact ⟨d2, hl, RefsOk_mono W (entryDepth e) _ hdmax1 d2.subdirectories hrec⟩
      · obtain ⟨d2, hl, hrec⟩ := hq ref htail
        exact ⟨d2, hl, RefsOk_mono W (entriesDepth rest) _ hdmax2 d2.subdirectories hrec⟩

/-- C7: on a well-formed, fully readable tree (with statistics fuel above
the tree depth, fuel being the model of Python recursion), the run persists
exactly one DirectoryIndex per indexed directory, at the deterministic path
output_dir ++ relative-path ++ [index.json] (output_dir/index.json for the
root): the written paths are exactly the per-directory artifact paths, with
no duplicates, and exactly one RepositoryIndex record is persisted at
output_dir/repo_index.json. -/
theorem c7_artifact_paths_deterministic (env : Env) (statsFuel : Nat)
    (repo_path output_dir : List String) (entries : SrcEntryList) (gs : Bool)
    (hwf : entriesWf entries = true)
    (hread : entriesAllReadable entries = true)
    (hfuel : entriesDepth entries + 2 ≤ statsFuel) :
    (((index_repository env statsFuel repo_path output_dir true entries gs).2.1.writes.map Prod.fst)
      = (entriesSubPaths [] entries).map (fun p => output_dir ++ p ++ [indexJsonStr])
          ++ [output_dir ++ [] ++ [indexJsonStr]])
  ∧ (((index_repository env statsFuel repo_path output_dir true entries gs).2.1.writes.map Prod.fst).Nodup)
  ∧ (((index_repository env statsFuel repo_path output_dir true entries gs).2.2.map Prod.fst)
      = [output_dir ++ [repoIndexJsonStr]]) := by
  have hwf2 : namesNodup entries = true ∧ entriesWfAux entries = true := by
    rw [show entriesWf entries = (namesNodup entries && entriesWfAux entries) from rfl,
        Bool.and_eq_true] at hwf
    exact hwf
  have hst : (index_repository env statsFuel repo_path output_dir true entries gs).2.1
      = (_index_directory env gs output_dir repo_path [] true entries none {}).2 := by
    simp only [index_repository]
    split <;> rfl
  have hwrites : (_index_directory env gs output_dir repo_path [] true entries none {}).2.writes
      = (indexSubdirsOf env gs output_dir repo_path []
          (output_dir ++ [] ++ [indexJsonStr]) entries {}).2.writes
        ++ [(output_dir ++ [] ++ [indexJsonStr],
            (_index_directory env gs output_dir repo_path [] true entries none {}).1)] :=
    finishDirectory_writes env gs repo_path [] (output_dir ++ [] ++ [indexJsonStr]) none
      (indexFilesPass gs repo_path [] entries.toList ({} : IState).cache)
      (indexSubdirsOf env gs output_dir repo_path []
        (output_dir ++ [] ++ [indexJsonStr]) entries {}).1
      (indexSubdirsOf env gs output_dir repo_path []
        (output_dir ++ [] ++ [indexJsonStr]) entries {}).2
  have hpaths : ((_index_directory env gs output_dir repo_path [] true entries none {}).2.writes.map
        Prod.fst)
      = (entriesSubPaths [] entries).map (fun p => output_dir ++ p ++ [indexJsonStr])
          ++ [output_dir ++ [] ++ [indexJsonStr]] := by
    rw [hwrites, List.map_append,
        writes_paths entries env gs output_dir repo_path [] (output_dir ++ [] ++ [indexJsonStr]) {}]
    rfl
  have hinj : Function.Injective (fun p : List String => output_dir ++ p ++ [indexJsonStr]) := by
    intro p q h
    simp only at h
    have h2 : output_dir ++ p = output_dir ++ q := List.append_cancel_right h
    exact List.append_cancel_left h2
  have hnodup : (((_index_directory env gs output_dir repo_path [] true entries none {}).2.writes.map
        Prod.fst)).Nodup := by
    rw [hpaths]
    apply List.Nodup.append
    · exact List.Nodup.map hinj (subPaths_nodup entries [] hwf2.1 hwf2.2)
    · exact List.nodup_singleton _
    · intro p hp hq
      have hp2 := List.mem_map.mp hp
      obtain ⟨q, hqmem, hqeq⟩ := hp2
      have hps : p = output_dir ++ [] ++ [indexJsonStr] := by simpa using hq
      rw [hps] at hqeq
      have h2 : output_dir ++ q = output_dir ++ [] := List.append_cancel_right hqeq
      have h3 : q = [] := List.append_cancel_left h2
      obtain ⟨hlen, _⟩ := subPaths_shape entries [] q hqmem
      rw [h3] at hlen
      simp at hlen
  have hlookup := storeLookup_self
    (_index_directory env gs output_dir repo_path [] true entries none {}).2.writes hnodup
  have hWsub : ∀ pr ∈ (indexSubdirsOf env gs output_dir repo_path []
      (output_dir ++ [] ++ [indexJsonStr]) entries {}).2.writes,
      storeLookup (_index_directory env gs output_dir repo_path [] true entries none {}).2.writes pr.1
        = some pr.2 := by
    intro pr hpr
    apply hlookup
    rw [hwrites]
    exact List.mem_append_left _ hpr
  have hrefs := walk_refsOk entries env gs output_dir repo_path []
    (output_dir ++ [] ++ [indexJsonStr]) {}
    (_index_directory env gs output_dir repo_path [] true entries none {}).2.writes hWsub hread
  have hsubs : (_index_directory env gs output_dir repo_path [] true entries none {}).1.subdirectories
      = (indexSubdirsOf env gs output_dir repo_path []
          (output_dir ++ [] ++ [indexJsonStr]) entries {}).1 :=
    finishDirectory_subdirectories env gs repo_path [] (output_dir ++ [] ++ [indexJsonStr]) none
      (indexFilesPass gs repo_path [] entries.toList ({} : IState).cache)
      (indexSubdirsOf env gs output_dir repo_path []
        (output_dir ++ [] ++ [indexJsonStr]) entries {}).1
      (indexSubdirsOf env gs output_dir repo_path []
        (output_dir ++ [] ++ [indexJsonStr]) entries {}).2
  have hmono : RefsOk (_index_directory env gs output_dir repo_path [] true entries none {}).2.writes
      (statsFuel - 1)
      (_index_directory env gs output_dir repo_path [] true entries none {}).1.subdirectories := by
    rw [hsubs]
    exact RefsOk_mono _ (entriesDepth entries + 1) (statsFuel - 1) (by omega) _ hrefs
  obtain ⟨acc2, hacc2⟩ := traverseStats_ok
    (_index_directory env gs output_dir repo_path [] true entries none {}).2.writes
    (statsFuel - 1)
    (_index_directory env gs output_dir repo_path [] true entries none {}).1
    { repo_id := _generate_id env repo_path, name := repo_path.getLastD emptyStr,
      repo_path := repo_path, index_root_path := output_dir,
      root_index_path :=
        (_index_directory env gs output_dir repo_path [] true entries none {}).1.index_file_path,
      primary_language := pythonStr } hmono
  rw [show statsFuel - 1 + 1 = statsFuel by omega] at hacc2
  refine ⟨?_, ?_, ?_⟩
  · rw [hst]
    exact hpaths
  · rw [hst]
    exact hnodup
  · simp only [index_repository]
    split
    · rename_i e heq
      exfalso
      simp only [_calculate_statistics] at heq
      rw [hacc2] at heq
      exact Except.noConfusion heq
    · rfl

theorem c7_artifact_paths_deterministic_witness :
    (((index_repository env0 100 [ repoStr ] [ outStr ] true treeC1 true).2.1.writes.map Prod.fst)
      = (entriesSubPaths [] treeC1).map (fun p => [ outStr ] ++ p ++ [indexJsonStr])
          ++ [[ outStr ] ++ [] ++ [indexJsonStr]])
  ∧ (((index_repository env0 100 [ repoStr ] [ outStr ] true treeC1 true).2.1.writes.map Prod.fst).Nodup)
  ∧ (((index_repository env0 100 [ repoStr ] [ outStr ] true treeC1 true).2.2.map Prod.fst)
      = [[ outStr ] ++ [repoIndexJsonStr]]) :=
  c7_artifact_paths_deterministic env0 100 [ repoStr ] [ outStr ] treeC1 true
    (by decide) (by decide) (by decide)

end CPI
